import Mathlib

/-!
# rlock: a Redis-backed mutual-exclusion lock

A shallow embedding of `lock.go` (package `rlock`) and a verification of its
contract.  Go's side effects are made explicit:

* the Redis connection (`redis.Cmdable`) is a record of state-passing
  functions over a world type `ω`;
* Go errors are values of `Err`, with `fmt.Errorf("...%w", e)` as the `wrapf`
  constructor and `errors.Is` as a walk down the wrap chain;
* channels are counters with a capacity and a closed flag, and every channel
  operation that can panic or block is fallible;
* a `float64` is the pair of its significand and exponent, and conversions and
  arithmetic round to nearest, ties to even;
* unbounded loops take a fuel argument and every function returns the list of
  observable events it performed next to its result.
-/

namespace rlock

/-! ## Errors -/

/-- Go error values handled by the package. -/
inductive Err where
  /-- The sentinel `context.DeadlineExceeded`. -/
  | DeadlineExceeded : Err
  /-- The sentinel `context.Canceled`. -/
  | Canceled : Err
  /-- The sentinel `redis.Nil`, the nil-reply marker of go-redis. -/
  | Nil : Err
  /-- The package sentinel `ErrLockNotHold = errors.New("rlock: 未持有锁")`. -/
  | ErrLockNotHold : Err
  /-- The package sentinel `ErrFailedToPreemptLock = errors.New("rlock: 抢锁失败")`. -/
  | ErrFailedToPreemptLock : Err
  /-- Any other leaf error, for instance a network failure reported by the driver. -/
  | other (msg : String) : Err
  /-- The error `fmt.Errorf(format, inner)` whose `format` ends in `%w`; it also
  stands for a library error that unwraps to `inner`. -/
  | wrapf (format : String) (inner : Err) : Err
  deriving DecidableEq, Repr

/-- Go `errors.Is(err, target)`: `err` or an error in its unwrap chain equals `target`. -/
def errors.Is : Err → Err → Bool
  | Err.wrapf f inner, target =>
      decide (Err.wrapf f inner = target) || errors.Is inner target
  | e, target => decide (e = target)

/-! ## Values exchanged with the store -/

/-- Go `time.Duration`: a count of nanoseconds. -/
structure Duration where
  ns : Int
  deriving DecidableEq, Repr

/-- A finite `float64` that is zero or normal: the value `m * 2 ^ e`, with
`m = 0` and `e = 0` for zero and `2 ^ 52 ≤ |m| < 2 ^ 53` otherwise. -/
structure Float64 where
  m : Int
  e : Int
  deriving DecidableEq, Repr

/-- The number of halvings that bring `n` below two, at most `fuel` of them:
the floor of the binary logarithm of `n` when `n < 2 ^ fuel`. -/
def log2 : Nat → Nat → Nat
  | 0, _ => 0
  | fuel + 1, n => if n < 2 then 0 else log2 fuel (n / 2) + 1

/-- The `float64` nearest to the rational `a / b`, a tie going to the even
significand: the rounding of Go's conversions and arithmetic on `float64`.
Results that overflow or are subnormal are not modelled; none arises from a
`time.Duration`. -/
def Float64.ofRat (a : Int) (b : Nat) : Float64 :=
  if a = 0 ∨ b = 0 then ⟨0, 0⟩
  else
    let n := a.natAbs
    let e0 : Int := (log2 n n : Int) - (log2 b b : Int) - 52
    let q0 := (n * 2 ^ (-e0).toNat) / (b * 2 ^ e0.toNat)
    let e : Int := if q0 < 2 ^ 52 then e0 - 1 else e0
    let num := n * 2 ^ (-e).toNat
    let den := b * 2 ^ e.toNat
    let q := num / den
    let r := num % den
    let m := if den < 2 * r ∨ (2 * r = den ∧ q % 2 = 1) then q + 1 else q
    let m1 := if m = 2 ^ 53 then 2 ^ 52 else m
    let e1 : Int := if m = 2 ^ 53 then e + 1 else e
    ⟨if a < 0 then -(m1 : Int) else (m1 : Int), e1⟩

/-- Go `float64(n)` for an integer `n`. -/
def Float64.ofInt (n : Int) : Float64 := Float64.ofRat n 1

/-- Go `x / y` on `float64`, for a divisor other than zero. -/
def Float64.div (x y : Float64) : Float64 :=
  Float64.ofRat (x.m * y.m.sign * 2 ^ (x.e - y.e).toNat) (y.m.natAbs * 2 ^ (y.e - x.e).toNat)

/-- Go `x + y` on `float64`. -/
def Float64.add (x y : Float64) : Float64 :=
  Float64.ofRat
    ((x.m * 2 ^ (x.e - min x.e y.e).toNat + y.m * 2 ^ (y.e - min x.e y.e).toNat)
      * 2 ^ (min x.e y.e).toNat)
    (2 ^ (-(min x.e y.e)).toNat)

/-- Go `d.Seconds()`: `sec := d / Second; nsec := d % Second` with truncating
division, returned as `float64(sec) + float64(nsec)/1e9`. -/
def Duration.Seconds (d : Duration) : Float64 :=
  let sec := d.ns.tdiv 1000000000
  let nsec := d.ns.tmod 1000000000
  Float64.add (Float64.ofInt sec) (Float64.div (Float64.ofInt nsec) (Float64.ofInt 1000000000))

/-- The value of `f`, taken as seconds, is exactly `d` nanoseconds. -/
def Float64.isNs (f : Float64) (d : Int) : Prop :=
  d * 2 ^ (-f.e).toNat = f.m * 1000000000 * 2 ^ f.e.toNat

instance Float64.isNs.decidable (f : Float64) (d : Int) : Decidable (f.isNs d) :=
  inferInstanceAs (Decidable (d * 2 ^ (-f.e).toNat = f.m * 1000000000 * 2 ^ f.e.toNat))

/-- A non-nil reply value as go-redis decodes it into an empty interface. -/
inductive Val where
  | str (s : String) : Val
  | int (n : Int) : Val
  deriving DecidableEq, Repr

/-- An `ARGV` entry of an `Eval` call. -/
inductive Arg where
  | str (s : String) : Arg
  | float (x : Float64) : Arg
  deriving DecidableEq, Repr

/-- The three embedded Lua scripts; only their identity is used by `lock.go`. -/
inductive Script where
  | luaLock : Script
  | luaUnlock : Script
  | luaRefresh : Script
  deriving DecidableEq, Repr

deriving instance DecidableEq for Except

/-- The part of `redis.Cmdable` used by the package, over a world `ω`.  A command
yields `Except.error e` when the driver reports error `e` (a nil reply is the
error `redis.Nil`) and `Except.ok v` when it decoded the reply `v`.  The
context argument is not passed: a deadline or cancellation shows as the error
the command returns. -/
structure Cmdable (ω : Type) where
  Eval : Script → List String → List Arg → ω → Except Err Val × ω
  SetNX : String → String → Duration → ω → Except Err Bool × ω

/-- Go `strconv.ParseInt(s, 10, 64)`. -/
def strconv.ParseInt (s : String) : Except Err Int :=
  let (neg, digits) :=
    match s.data with
    | '+' :: r => (false, r)
    | '-' :: r => (true, r)
    | r => (false, r)
  if digits = [] ∨ ¬ digits.all Char.isDigit then
    .error (Err.other "strconv.ParseInt: invalid syntax")
  else
    let n : Nat := digits.foldl (fun a c => 10 * a + (c.toNat - 48)) 0
    let v : Int := if neg then -(n : Int) else (n : Int)
    if v < -9223372036854775808 ∨ 9223372036854775807 < v then
      .error (Err.other "strconv.ParseInt: value out of range")
    else .ok v

/-- The accessor `(*redis.Cmd).Result()`: the value and the error of a command. -/
def Cmd.Result (r : Except Err Val) : Option Val × Option Err :=
  match r with
  | .error e => (none, some e)
  | .ok v => (some v, none)

/-- The accessor `(*redis.Cmd).Int64()`: the command error if any, else the reply
converted by `toInt64`. -/
def Cmd.Int64 (r : Except Err Val) : Int × Option Err :=
  match r with
  | .error e => (0, some e)
  | .ok (Val.int n) => (n, none)
  | .ok (Val.str s) =>
      match strconv.ParseInt s with
      | .ok n => (n, none)
      | .error e => (0, some e)

/-! ## Channels and the lock handle -/

/-- A Go channel of empty structs: capacity, number of buffered elements, closed flag. -/
structure Chan where
  cap : Nat
  len : Nat
  closed : Bool
  deriving DecidableEq, Repr

/-- Ways a channel operation fails to complete. -/
inductive ChanFault where
  /-- Panic: send on closed channel. -/
  | sendOnClosed : ChanFault
  /-- Panic: close of closed channel. -/
  | closeOfClosed : ChanFault
  /-- The buffer is full and nobody receives: the sender blocks. -/
  | blocked : ChanFault
  deriving DecidableEq, Repr

/-- Go `make` for a channel of empty structs with buffer `cap`. -/
def Chan.make (cap : Nat) : Chan := ⟨cap, 0, false⟩

/-- A blocking send on `c` with no receiver waiting. -/
def Chan.send (c : Chan) : Except ChanFault Chan :=
  if c.closed then .error ChanFault.sendOnClosed
  else if c.len < c.cap then .ok { c with len := c.len + 1 }
  else .error ChanFault.blocked

/-- A send on `c` inside a `select` with a `default` case, with no receiver waiting. -/
def Chan.trySend (c : Chan) : Except ChanFault Chan :=
  if c.closed then .error ChanFault.sendOnClosed
  else if c.len < c.cap then .ok { c with len := c.len + 1 }
  else .ok c

/-- Go `close(c)`. -/
def Chan.close (c : Chan) : Except ChanFault Chan :=
  if c.closed then .error ChanFault.closeOfClosed
  else .ok { c with closed := true }

/-- A receive `<-c` can proceed: an element is buffered or the channel is closed. -/
def Chan.ready (c : Chan) : Bool := decide (0 < c.len) || c.closed

/-- The channel after a receive that proceeded. -/
def Chan.recv (c : Chan) : Chan :=
  if 0 < c.len then { c with len := c.len - 1 } else c

/-- Go `type Lock struct`.  The `client` field is the shared connection and is
passed to the methods explicitly; `singnalUnlockOnce` is the done flag of the
`sync.Once`. -/
structure Lock where
  key : String
  value : String
  expiration : Duration
  unlock : Chan
  singnalUnlockOnce : Bool
  deriving DecidableEq, Repr

/-- Go `newLock`. -/
def newLock (key : String) (value : String) (expiration : Duration) : Lock :=
  { key := key, value := value, expiration := expiration,
    unlock := Chan.make 1, singnalUnlockOnce := false }

/-- Observable events of a call, in program order. -/
inductive Ev where
  /-- The command `client.SetNX(ctx, key, val, expiration)` and its result. -/
  | SetNX (key : String) (val : String) (expiration : Duration) (res : Except Err Bool) : Ev
  /-- The command `client.Eval(ctx, script, keys, args...)` and its result. -/
  | Eval (script : Script) (keys : List String) (args : List Arg) (res : Except Err Val) : Ev
  /-- The call `retry.Next()` and what it returned. -/
  | Next (interval : Duration) (ok : Bool) : Ev
  /-- The wait `select` on `timer.C` and `ctx.Done()`: the interval armed and the
  context error if the context won. -/
  | Wait (interval : Duration) (done : Option Err) : Ev
  /-- The blocking send on `l.unlock`. -/
  | Send : Ev
  /-- The statement `close(l.unlock)`. -/
  | Close : Ev
  deriving DecidableEq, Repr

/-! ## Client -/

/-- A version-4 UUID: sixteen bytes. -/
structure UUID where
  bytes : List Nat
  deriving DecidableEq, Repr

/-- One lower-case hexadecimal digit. -/
def hexDigit (n : Nat) : Char :=
  "0123456789abcdef".data.getD (n % 16) '0'

/-- Two hexadecimal digits of a byte. -/
def hexByte (b : Nat) : List Char :=
  [hexDigit ((b % 256) / 16), hexDigit (b % 16)]

/-- Hexadecimal digits of the bytes at positions `i`, `i + 1`, ..., `j - 1`. -/
def UUID.hex (u : UUID) (i j : Nat) : List Char :=
  ((List.range (j - i)).map (fun k => hexByte (u.bytes.getD (i + k) 0))).flatten

/-- The method `(uuid.UUID).String()`: the form `xxxxxxxx-xxxx-xxxx-xxxx-xxxxxxxxxxxx`. -/
def UUID.String (u : UUID) : String :=
  String.mk (u.hex 0 4 ++ '-' :: u.hex 4 6 ++ '-' :: u.hex 6 8 ++ '-' :: u.hex 8 10
    ++ '-' :: u.hex 10 16)

/-- Go `type Client struct`.  The field `valuer` draws from the world; the
`singleflight.Group` field is modelled with `SingleflightLock`. -/
structure Client (ω : Type) where
  client : Cmdable ω
  valuer : ω → String × ω

/-- Go `uuid.New()`: sixteen bytes read from `rand`, then the version and variant
bits set (`b[6] = b[6] & 0x0f | 0x40`, `b[8] = b[8] & 0x3f | 0x80`). -/
def uuid.New {ω : Type} (rand : ω → List Nat × ω) (w : ω) : UUID × ω :=
  let b := (rand w).1
  (⟨(b.set 6 (b.getD 6 0 % 16 + 64)).set 8 (b.getD 8 0 % 64 + 128)⟩, (rand w).2)

/-- Go `NewClient`: the valuer is `uuid.New().String()`, with `rand` the random
source of the world. -/
def NewClient {ω : Type} (client : Cmdable ω) (rand : ω → List Nat × ω) : Client ω :=
  { client := client,
    valuer := fun w => ((uuid.New rand w).1.String, (uuid.New rand w).2) }

/-- Go `(*Client).TryLock`: the result, the events performed and the world after. -/
def Client.TryLock {ω : Type} (c : Client ω) (key : String) (expiration : Duration) (w : ω) :
    Except Err Lock × List Ev × ω :=
  let val := (c.valuer w).1
  let w1 := (c.valuer w).2
  let r := c.client.SetNX key val expiration w1
  let ev := [Ev.SetNX key val expiration r.1]
  match r.1 with
  -- redis error
  | .error err => (.error err, ev, r.2)
  -- lock error
  | .ok false => (.error Err.ErrFailedToPreemptLock, ev, r.2)
  | .ok true => (.ok (newLock key val expiration), ev, r.2)

/-- Go `type RetryStrategy interface`, with the state of the strategy made explicit. -/
structure RetryStrategy (ρ : Type) where
  Next : ρ → (Duration × Bool) × ρ

/-- The caller's context as seen by the wait of `Lock`: `ctx n = some e` when at
the wait number `n` of the call `ctx.Done()` is taken, with `ctx.Err() = e`, and
`none` when the timer fires. -/
abbrev Context := Nat → Option Err

/-- The state threaded through the retry loop of `Lock`. -/
structure LoopState (ω ρ : Type) where
  w : ω
  r : ρ
  waits : Nat

/-- The `for` loop of `(*Client).Lock`, run for at most `fuel` iterations: the
result (`none` while the loop has not returned), the events and the state.  The
timer is created at the first wait and reset at the later ones; either way it is
armed with `interval`, which the `Wait` event records. -/
def Client.Lock.loop {ω ρ : Type} (c : Client ω) (ctx : Context) (key : String) (val : String)
    (expiration : Duration) (retry : RetryStrategy ρ) :
    Nat → LoopState ω ρ → Option (Except Err Lock) × List Ev × LoopState ω ρ
  | 0, s => (none, [], s)
  | fuel + 1, s =>
    let args := [Arg.str val, Arg.float expiration.Seconds]
    let cmd := c.client.Eval Script.luaLock [key] args s.w
    let res := (Cmd.Result cmd.1).1
    let err := (Cmd.Result cmd.1).2
    let ev := Ev.Eval Script.luaLock [key] args cmd.1
    let s1 : LoopState ω ρ := { s with w := cmd.2 }
    if err.any (fun e => errors.Is e Err.DeadlineExceeded) then
      (err.map Except.error, [ev], s1)
    else if res = some (Val.str "OK") then
      (some (.ok (newLock key val expiration)), [ev], s1)
    else
      let nx := retry.Next s1.r
      let interval := nx.1.1
      let ok := nx.1.2
      let s2 : LoopState ω ρ := { s1 with r := nx.2 }
      if !ok then
        let err1 :=
          match err with
          | some e => Err.wrapf "最后一次重试错误: %w" e
          | none => Err.wrapf "锁被人持有: %w" Err.ErrFailedToPreemptLock
        (some (.error (Err.wrapf "rlock: 重试机会耗尽，%w" err1)), [ev, Ev.Next interval ok], s2)
      else
        let s3 : LoopState ω ρ := { s2 with waits := s2.waits + 1 }
        match ctx s2.waits with
        | some e => (some (.error e), [ev, Ev.Next interval ok, Ev.Wait interval (some e)], s3)
        | none =>
          let rest := Client.Lock.loop c ctx key val expiration retry fuel s3
          (rest.1, ev :: Ev.Next interval ok :: Ev.Wait interval none :: rest.2.1, rest.2.2)

/-- Go `(*Client).Lock`: one token from the valuer, then the retry loop. -/
def Client.Lock {ω ρ : Type} (c : Client ω) (ctx : Context) (key : String)
    (expiration : Duration) (retry : RetryStrategy ρ) (fuel : Nat) (w : ω) (r : ρ) :
    Option (Except Err Lock) × List Ev × LoopState ω ρ :=
  let val := (c.valuer w).1
  Client.Lock.loop c ctx key val expiration retry fuel { w := (c.valuer w).2, r := r, waits := 0 }

/-- Go `(*Lock).Refresh`. -/
def Lock.Refresh {ω : Type} (client : Cmdable ω) (l : Lock) (w : ω) : Option Err × List Ev × ω :=
  let args := [Arg.str l.value, Arg.float l.expiration.Seconds]
  let cmd := client.Eval Script.luaRefresh [l.key] args w
  let res := (Cmd.Int64 cmd.1).1
  let err := (Cmd.Int64 cmd.1).2
  let ev := [Ev.Eval Script.luaRefresh [l.key] args cmd.1]
  if err ≠ none then (err, ev, cmd.2)
  else if res ≠ 1 then (some Err.ErrLockNotHold, ev, cmd.2)
  else (none, ev, cmd.2)

/-- The deferred function of `Unlock`: `l.singnalUnlockOnce.Do` of a send on
`l.unlock` followed by its close. -/
def Lock.signalUnlock (l : Lock) : Except ChanFault (Lock × List Ev) :=
  if l.singnalUnlockOnce then .ok (l, [])
  else
    match l.unlock.send with
    | .error f => .error f
    | .ok ch1 =>
      match ch1.close with
      | .error f => .error f
      | .ok ch2 => .ok ({ l with unlock := ch2, singnalUnlockOnce := true }, [Ev.Send, Ev.Close])

/-- Go `(*Lock).Unlock`: the release attempt, then the deferred signal.  The
result is the returned error, the lock after the call, the events and the world. -/
def Lock.Unlock {ω : Type} (client : Cmdable ω) (l : Lock) (w : ω) :
    Except ChanFault (Option Err × Lock × List Ev × ω) :=
  let args := [Arg.str l.value]
  let cmd := client.Eval Script.luaUnlock [l.key] args w
  let res := (Cmd.Int64 cmd.1).1
  let err := (Cmd.Int64 cmd.1).2
  let ev := Ev.Eval Script.luaUnlock [l.key] args cmd.1
  let ret : Option Err :=
    if err = some Err.Nil then some Err.ErrLockNotHold
    else if err ≠ none then err
    -- other lock, or lock not exist
    else if res ≠ 1 then some Err.ErrLockNotHold
    else none
  match l.signalUnlock with
  | .error f => .error f
  | .ok (l1, evs) => .ok (ret, l1, ev :: evs, cmd.2)

/-- A number of successive `Unlock` calls on one handle: the error returned and
the events performed by each call, the handle and the world after the last. -/
def Lock.unlocks {ω : Type} (client : Cmdable ω) :
    Nat → Lock → ω → Except ChanFault (List (Option Err × List Ev) × Lock × ω)
  | 0, l, w => .ok ([], l, w)
  | n + 1, l, w =>
    match l.Unlock client w with
    | .error f => .error f
    | .ok (ret, l1, evs, w1) =>
      match Lock.unlocks client n l1 w1 with
      | .error f => .error f
      | .ok (rs, l2, w2) => .ok ((ret, evs) :: rs, l2, w2)

/-! ## AutoRefresh -/

/-- A running `AutoRefresh` call together with what it shares with other
goroutines: the lock, the world, its retry channel `ch`, the channel `ticker.C`,
the value returned once it has returned, and the values returned by the
`Refresh` calls it issued so far. -/
structure Task (ω : Type) where
  l : Lock
  w : ω
  ch : Chan
  tickerC : Chan
  ret : Option (Option Err)
  refreshes : List (Option Err)

/-- Atomic steps of the system around one `AutoRefresh` call.  `tick` and
`unlock` are taken by the environment (the runtime delivers a tick on
`ticker.C`; another goroutine runs `l.Unlock`).  The three `case` steps are one
iteration of the loop with the `select` taking that case; Go takes any one of
the cases that can proceed. -/
inductive Step where
  | tick : Step
  | unlock : Step
  | caseCh : Step
  | caseTicker : Step
  | caseUnlock : Step
  deriving DecidableEq, Repr

/-- The entry of `AutoRefresh`: `ch := make(chan, 1)` and a new ticker. -/
def Lock.AutoRefresh.start {ω : Type} (l : Lock) (w : ω) : Task ω :=
  { l := l, w := w, ch := Chan.make 1, tickerC := Chan.make 1, ret := none, refreshes := [] }

/-- The body shared by the cases `<-ch` and `<-ticker.C`: `Refresh`, then a
non-blocking send on `ch` and `continue` when the error is
`context.DeadlineExceeded`, a return of any other error, and the next iteration
otherwise.  A return runs the deferred `close(ch)`. -/
def Lock.AutoRefresh.refresh {ω : Type} (client : Cmdable ω) (t : Task ω) : Option (Task ω) :=
  let r := t.l.Refresh client t.w
  let err := r.1
  let t1 : Task ω := { t with w := r.2.2, refreshes := t.refreshes ++ [err] }
  if err = some Err.DeadlineExceeded then
    match t1.ch.trySend with
    | .ok ch1 => some { t1 with ch := ch1 }
    | .error _ => none
  else if err ≠ none then
    match t1.ch.close with
    | .ok ch1 => some { t1 with ch := ch1, ret := some err }
    | .error _ => none
  else some t1

/-- One step of the system; `none` when the step cannot be taken (a `select`
case that cannot proceed, a task that has returned, a panic). -/
def Lock.AutoRefresh.step {ω : Type} (client : Cmdable ω) (t : Task ω) : Step → Option (Task ω)
  | Step.tick =>
    if t.ret = none then
      match t.tickerC.trySend with
      | .ok c => some { t with tickerC := c }
      | .error _ => none
    else some t
  | Step.unlock =>
    match t.l.Unlock client t.w with
    | .ok (_, l1, _, w1) => some { t with l := l1, w := w1 }
    | .error _ => none
  | Step.caseCh =>
    if t.ret = none ∧ t.ch.ready then
      Lock.AutoRefresh.refresh client { t with ch := t.ch.recv }
    else none
  | Step.caseTicker =>
    if t.ret = none ∧ t.tickerC.ready then
      Lock.AutoRefresh.refresh client { t with tickerC := t.tickerC.recv }
    else none
  | Step.caseUnlock =>
    if t.ret = none ∧ t.l.unlock.ready then
      match t.ch.close with
      | .ok ch1 =>
        some { t with l := { t.l with unlock := t.l.unlock.recv }, ch := ch1, ret := some none }
      | .error _ => none
    else none

/-- A sequence of steps. -/
def Lock.AutoRefresh.run {ω : Type} (client : Cmdable ω) (t : Task ω) : List Step → Option (Task ω)
  | [] => some t
  | st :: rest =>
    match Lock.AutoRefresh.step client t st with
    | some t1 => Lock.AutoRefresh.run client t1 rest
    | none => none

/-! ## SingleflightLock -/

/-- What one iteration of the loop of `SingleflightLock` meets.  `leader` tells
whether `DoChan` found no call in flight for the key and therefore runs the
function of this call (which sets `flag` and calls `c.Lock`); `res` is the
result delivered on `resCh`, that of the own function for a leader and that of
the call joined otherwise; `done = some e` when the `select` takes `ctx.Done()`
instead, with `ctx.Err() = e`. -/
structure Round where
  leader : Bool
  res : Except Err Lock
  done : Option Err
  deriving DecidableEq, Repr

/-- Go `(*Client).SingleflightLock` over the rounds it meets: the value returned
(`none` while it is still looping) and the number of times its own function,
hence an underlying `Lock`, was started. -/
def Client.SingleflightLock : List Round → Option (Except Err rlock.Lock) × Nat
  | [] => (none, 0)
  | rd :: rest =>
    let flag := rd.leader
    let n := if rd.leader then 1 else 0
    match rd.done with
    | some e => (some (.error e), n)
    | none =>
      if flag then
        -- c.g.Forget(key)
        match rd.res with
        | .error e => (some (.error e), n)
        | .ok l => (some (.ok l), n)
      else
        ((Client.SingleflightLock rest).1, n + (Client.SingleflightLock rest).2)

/-! ## The store -/

/-- A time to live as the store received it: nanoseconds (from `SET` with
`PX` or `EX`) or the `float64` seconds argument of a script. -/
inductive TTL where
  | ns (d : Int) : TTL
  | secs (f : Float64) : TTL
  deriving DecidableEq, Repr

/-- The time to live exceeds `elapsed` nanoseconds. -/
def TTL.covers (t : TTL) (elapsed : Int) : Bool :=
  match t with
  | TTL.ns d => decide (elapsed < d)
  | TTL.secs f => decide (elapsed * 2 ^ (-f.e).toNat < f.m * 1000000000 * 2 ^ f.e.toNat)

/-- A key of the store: its value, the instant its expiry was last set, and the
time to live set then, if any. -/
structure Entry where
  value : String
  since : Int
  ttl : Option TTL
  deriving DecidableEq, Repr

/-- A world with one Redis server: the server clock (nanoseconds), its keyspace,
the faults the connection will suffer (one entry per command: `none` when the
command is answered, `some (e, applied)` when the driver reports the error `e`,
the command having reached the server or not), and the random bytes still to be
read. -/
structure World where
  now : Int
  data : String → Option Entry
  faults : List (Option (Err × Bool))
  rand : List (List Nat)

/-- The entry at a key, an expired key being absent. -/
def World.get (w : World) (key : String) : Option Entry :=
  match w.data key with
  | none => none
  | some e =>
    match e.ttl with
    | none => some e
    | some t => if t.covers (w.now - e.since) then some e else none

/-- The world with the entry at a key replaced. -/
def World.put (w : World) (key : String) (e : Option Entry) : World :=
  { w with data := fun k => if k = key then e else w.data k }

/-- Modelled from the spec: the script `script/lua/lock.lua`, operation Acquire:
set key to token with expiry ttlSeconds only if key does not currently exist;
"OK" on success, a non-OK marker (here the empty string) if the key is present. -/
def Acquire (key token : String) (ttl : Float64) (w : World) : Val × World :=
  match w.get key with
  | none => (Val.str "OK", w.put key (some ⟨token, w.now, some (TTL.secs ttl)⟩))
  | some _ => (Val.str "", w)

/-- Modelled from the spec: the script `script/lua/unlock.lua`, operation Release:
if the stored value at key equals token, delete key; 1 if deleted, 0 if the key
is absent or the value mismatched. -/
def Release (key token : String) (w : World) : Val × World :=
  if (w.get key).map Entry.value = some token then (Val.int 1, w.put key none)
  else (Val.int 0, w)

/-- Modelled from the spec: the script `script/lua/refresh.lua`, operation Renew:
if the stored value at key equals token, reset its expiry to ttlSeconds; 1 if
renewed, 0 if the key is absent or the value mismatched. -/
def Renew (key token : String) (ttl : Float64) (w : World) : Val × World :=
  if (w.get key).map Entry.value = some token then
    (Val.int 1, w.put key (some ⟨token, w.now, some (TTL.secs ttl)⟩))
  else (Val.int 0, w)

/-- The server running an `EVAL` of one of the three scripts. -/
def World.eval (script : Script) (keys : List String) (args : List Arg) (w : World) :
    Except Err Val × World :=
  match script, keys, args with
  | Script.luaLock, [key], [Arg.str token, Arg.float ttl] =>
    (.ok (Acquire key token ttl w).1, (Acquire key token ttl w).2)
  | Script.luaUnlock, [key], [Arg.str token] =>
    (.ok (Release key token w).1, (Release key token w).2)
  | Script.luaRefresh, [key], [Arg.str token, Arg.float ttl] =>
    (.ok (Renew key token ttl w).1, (Renew key token ttl w).2)
  | _, _, _ => (.error (Err.other "ERR wrong number of arguments"), w)

/-- The server running `SET key val NX` with the expiry go-redis derives from
`expiration`: none for zero and for `KeepTTL` (-1), rejected when negative. -/
def World.setnx (key val : String) (expiration : Duration) (w : World) :
    Except Err Bool × World :=
  if expiration.ns < 0 ∧ expiration.ns ≠ -1 then
    (.error (Err.other "ERR invalid expire time in 'set' command"), w)
  else
    match w.get key with
    | some _ => (.ok false, w)
    | none =>
      (.ok true, w.put key
        (some ⟨val, w.now, if expiration.ns ≤ 0 then none else some (TTL.ns expiration.ns)⟩))

/-- A command sent over the connection: the next fault decides whether the
driver reports an error and whether the server ran the command. -/
def World.send {α : Type} (op : World → Except Err α × World) (w : World) :
    Except Err α × World :=
  let w1 : World := { w with faults := w.faults.tail }
  match w.faults with
  | some (e, applied) :: _ => (.error e, if applied then (op w1).2 else w1)
  | _ => op w1

/-- The connection to the server as a `redis.Cmdable`. -/
def World.redis : Cmdable World :=
  { Eval := fun script keys args w => World.send (World.eval script keys args) w,
    SetNX := fun key val expiration w => World.send (World.setnx key val expiration) w }

/-- The random source of the world: the next sixteen bytes. -/
def World.read (w : World) : List Nat × World :=
  match w.rand with
  | [] => (List.replicate 16 0, w)
  | b :: bs => (b, { w with rand := bs })

/-- The client `NewClient(rdb)` of a world. -/
def World.client : Client World := NewClient World.redis World.read

/-! ## A scripted connection and a fixed-interval strategy -/

/-- A world in which the store is an oracle: the number of commands answered and
the number of tokens generated so far. -/
structure Oracle where
  cmds : Nat
  tokens : Nat
  deriving DecidableEq, Repr

/-- The connection answering command number `n` with `replies n`. -/
def Oracle.redis (replies : Nat → Except Err Val) : Cmdable Oracle :=
  { Eval := fun _ _ _ w => (replies w.cmds, { w with cmds := w.cmds + 1 }),
    SetNX := fun _ _ _ w =>
      (match replies w.cmds with
        | .error e => .error e
        | .ok v => .ok (decide (v = Val.int 1)),
       { w with cmds := w.cmds + 1 }) }

/-- The client over the scripted connection whose valuer yields `token n` as
token number `n`. -/
def Oracle.client (replies : Nat → Except Err Val) (token : Nat → String) : Client Oracle :=
  { client := Oracle.redis replies,
    valuer := fun w => (token w.tokens, { w with tokens := w.tokens + 1 }) }

/-- The state of a strategy after `n` calls of `Next`. -/
def RetryStrategy.after {ρ : Type} (retry : RetryStrategy ρ) (r : ρ) : Nat → ρ
  | 0 => r
  | n + 1 => (retry.Next (retry.after r n)).2

/-- A strategy in state `r` allows exactly `K` retries: the first `K` calls of
`Next` report `true` and the next one reports `false`. -/
def RetryStrategy.allows {ρ : Type} (retry : RetryStrategy ρ) (r : ρ) (K : Nat) : Prop :=
  (∀ i, i < K → (retry.Next (retry.after r i)).1.2 = true) ∧
  (retry.Next (retry.after r K)).1.2 = false

/-- Modelled from the spec: a fixed-interval implementation of `RetryStrategy`
(the implementations of the repository are not part of the sources at hand): it
allows `Max` retries, each after `Interval`. -/
structure FixIntervalRetry where
  Interval : Duration
  Max : Nat
  cnt : Nat
  deriving DecidableEq, Repr

/-- Modelled from the spec: `Next` of the fixed-interval strategy counts the call
and reports whether the count is within `Max`. -/
def FixIntervalRetry.strategy : RetryStrategy FixIntervalRetry :=
  { Next := fun f => ((f.Interval, decide (f.cnt + 1 ≤ f.Max)), { f with cnt := f.cnt + 1 }) }

/-- The acquire attempts among the events of a call. -/
def attempts (evs : List Ev) : List Ev :=
  evs.filter (fun ev => match ev with | Ev.Eval Script.luaLock _ _ _ => true | _ => false)

/-- The calls of `retry.Next` among the events of a call. -/
def nexts (evs : List Ev) : List Ev :=
  evs.filter (fun ev => match ev with | Ev.Next _ _ => true | _ => false)

/-- The waits among the events of a call. -/
def waits (evs : List Ev) : List Ev :=
  evs.filter (fun ev => match ev with | Ev.Wait _ _ => true | _ => false)

/-- The attempt every iteration of `Lock` issues for a key, token and expiration,
with the answer it got. -/
def attempt (key token : String) (expiration : Duration) (res : Except Err Val) : Ev :=
  Ev.Eval Script.luaLock [key] [Arg.str token, Arg.float expiration.Seconds] res

/-- The error `Lock` returns when the strategy is exhausted after an attempt
answered `res`. -/
def exhausted (res : Except Err Val) : Err :=
  Err.wrapf "rlock: 重试机会耗尽，%w"
    (match res with
      | .error e => Err.wrapf "最后一次重试错误: %w" e
      | .ok _ => Err.wrapf "锁被人持有: %w" Err.ErrFailedToPreemptLock)

/-- An answer after which `Lock` asks the strategy: neither a deadline-exceeded
error nor "OK". -/
def retryable (res : Except Err Val) : Prop :=
  (∀ e, res = .error e → errors.Is e Err.DeadlineExceeded = false) ∧ res ≠ .ok (Val.str "OK")

/-- The events of the contended attempts number `a`, ..., `a + n - 1` of a call
over the scripted connection. -/
def contended {ρ : Type} (replies : Nat → Except Err Val) (key tok : String)
    (expiration : Duration) (retry : RetryStrategy ρ) (r0 : ρ) (a : Nat) : Nat → List Ev
  | 0 => []
  | n + 1 =>
    attempt key tok expiration (replies a)
      :: Ev.Next (retry.Next (retry.after r0 a)).1.1 true
      :: Ev.Wait (retry.Next (retry.after r0 a)).1.1 none
      :: contended replies key tok expiration retry r0 (a + 1) n

/-- A lock handle as `newLock` and `Unlock` leave it: the signal channel is
untouched until the `sync.Once` has run, and closed afterwards. -/
def Lock.wf (l : Lock) : Prop :=
  (l.singnalUnlockOnce = false → l.unlock = Chan.make 1) ∧
  (l.singnalUnlockOnce = true → l.unlock.closed = true ∧ l.unlock.cap = 1 ∧ l.unlock.len ≤ 1)

/-- The invariant of the system around an `AutoRefresh` call: the retry channel
has capacity one and is open while the task runs, the ticker channel is open,
the lock handle is well formed, and an error the task returned is the value of
the last `Refresh` and is not `context.DeadlineExceeded`. -/
def Task.inv {ω : Type} (t : Task ω) : Prop :=
  t.ch.cap = 1 ∧ t.ch.len ≤ 1 ∧ (t.ret = none → t.ch.closed = false) ∧
  t.tickerC.closed = false ∧ t.l.wf ∧
  (∀ e, t.ret = some (some e) →
    t.refreshes.getLast? = some (some e) ∧ e ≠ Err.DeadlineExceeded)

/-! ## Concrete worlds -/

/-- An empty server, a connection without faults, and sixteen random bytes. -/
def World.fresh : World :=
  { now := 0, data := fun _ => none, faults := [],
    rand := [[1, 2, 3, 4, 5, 6, 7, 8, 9, 10, 11, 12, 13, 14, 15, 255]] }

/-- One minute. -/
def minute : Duration := ⟨60000000000⟩

/-- Answers of a store on which the key is held during two attempts, the second
of them failing on the connection, and free at the third. -/
def Oracle.heldTwice : Nat → Except Err Val
  | 0 => .ok (Val.str "")
  | 1 => .error (Err.other "EOF")
  | 2 => .ok (Val.str "OK")
  | _ => .ok (Val.str "")

/-- Answers of a store on which the key is held at the first attempt and whose
second answer does not arrive within the deadline of the attempt. -/
def Oracle.timesOut : Nat → Except Err Val
  | 0 => .ok (Val.str "")
  | _ => .error (Err.wrapf "read tcp: %w" Err.DeadlineExceeded)

/-- Answers of a store for which the first attempt fails on the connection and
which reports the key held afterwards. -/
def Oracle.lostThenHeld : Nat → Except Err Val
  | 0 => .error (Err.other "EOF")
  | _ => .ok (Val.str "")

/-- The world after `TryLock("job:42", 60s)` on the fresh world. -/
def World.held : World := (World.client.TryLock "job:42" minute World.fresh).2.2

/-- The handle `TryLock("job:42", 60s)` returns on the fresh world. -/
def Lock.held : Lock := newLock "job:42" (World.client.valuer World.fresh).1 minute

/-- A handle for the same key with the token of another holder. -/
def Lock.stale : Lock := newLock "job:42" "ffffffff-ffff-4fff-bfff-ffffffffffff" minute

/-- Answers to the renewals of a watchdog: the first does not arrive in time,
the second renews, the third finds the lock lost. -/
def Oracle.renewals : Nat → Except Err Val
  | 0 => .error Err.DeadlineExceeded
  | 1 => .ok (Val.int 1)
  | _ => .ok (Val.int 0)

/-- The system after the holder of "job:42" started the watchdog and then called
`Unlock`. -/
def Task.unlocked : Task World :=
  (Lock.AutoRefresh.run World.redis (Lock.AutoRefresh.start Lock.held World.held)
    [Step.unlock]).getD (Lock.AutoRefresh.start Lock.held World.held)

/-- Answers to the renewals of a watchdog none of which arrives in time, the
connection reporting each as a read error that wraps `context.DeadlineExceeded`. -/
def Oracle.slowRenewals : Nat → Except Err Val
  | _ => .error (Err.wrapf "read tcp: %w" Err.DeadlineExceeded)

theorem UUID.String_ne_empty (u : UUID) : u.String ≠ "" := by
  intro h
  have h1 := congrArg String.length h
  simp [UUID.String, String.length] at h1

theorem World.setnx_spec (key val : String) (expiration : Duration) (w : World) :
    let r := World.setnx key val expiration w
    (r.2.now = w.now ∧ r.2.faults = w.faults ∧ r.2.rand = w.rand) ∧
    (∀ k, k ≠ key → r.2.data k = w.data k) ∧
    (∀ e, r.1 = .error e → r.2 = w) ∧
    (r.1 = .ok false → r.2 = w ∧ w.get key ≠ none) ∧
    (r.1 = .ok true → w.get key = none ∧ (r.2.get key).map Entry.value = some val) ∧
    (w.get key ≠ none → ∀ b, r.1 = .ok b → b = false) ∧
    (w.get key = none → ∀ b, r.1 = .ok b → b = true) := by
  intro r
  simp only [r]
  unfold World.setnx
  split
  · simp
  · rename_i hneg
    cases hg : w.get key with
    | some e => simp [hg]
    | none =>
      simp only [hg]
      refine ⟨by simp [World.put], ?_, by simp, by simp, ?_, by simp, by simp⟩
      · intro k hk; simp [World.put, hk]
      · intro _
        refine ⟨trivial, ?_⟩
        by_cases h0 : expiration.ns ≤ 0
        · simp [World.get, World.put, h0]
        · have : (0 : Int) < expiration.ns := by omega
          simp [World.get, World.put, h0, TTL.covers, this]

/-- An answered command was run by the server on the world with the fault consumed. -/
theorem World.send_answered {α : Type} (op : World → Except Err α × World) (w : World)
    (h : ∀ e, (World.send op w).1 ≠ .error e) :
    World.send op w = op { w with faults := w.faults.tail } := by
  unfold World.send at h ⊢
  simp only at h ⊢
  split
  · rename_i e a fs hf
    simp only [hf] at h
    exact absurd rfl (h e)
  · rfl

theorem World.get_congr (w v : World) (hn : v.now = w.now) (hd : v.data = w.data) (key : String) :
    v.get key = w.get key := by
  simp [World.get, hn, hd]

theorem Client.TryLock_error {ω : Type} (c : Client ω) (key : String) (expiration : Duration)
    (w : ω) (e : Err)
    (h : (c.client.SetNX key (c.valuer w).1 expiration (c.valuer w).2).1 = .error e) :
    (c.TryLock key expiration w).1 = .error e := by
  simp [Client.TryLock, h]

theorem Client.TryLock_false {ω : Type} (c : Client ω) (key : String) (expiration : Duration)
    (w : ω)
    (h : (c.client.SetNX key (c.valuer w).1 expiration (c.valuer w).2).1 = .ok false) :
    (c.TryLock key expiration w).1 = .error Err.ErrFailedToPreemptLock := by
  simp [Client.TryLock, h]

theorem Client.TryLock_true {ω : Type} (c : Client ω) (key : String) (expiration : Duration)
    (w : ω)
    (h : (c.client.SetNX key (c.valuer w).1 expiration (c.valuer w).2).1 = .ok true) :
    (c.TryLock key expiration w).1 = .ok (newLock key (c.valuer w).1 expiration) := by
  simp [Client.TryLock, h]

theorem Client.TryLock_trace {ω : Type} (c : Client ω) (key : String) (expiration : Duration)
    (w : ω) :
    (c.TryLock key expiration w).2 =
      ([Ev.SetNX key (c.valuer w).1 expiration
          (c.client.SetNX key (c.valuer w).1 expiration (c.valuer w).2).1],
        (c.client.SetNX key (c.valuer w).1 expiration (c.valuer w).2).2) := by
  unfold Client.TryLock
  simp only
  split <;> rfl

/-- What an answered `SetNX` does to a world. -/
theorem World.SetNX_answered (key val : String) (expiration : Duration) (w : World)
    (h : ∀ e, (World.redis.SetNX key val expiration w).1 ≠ .error e) :
    ((World.redis.SetNX key val expiration w).2.now = w.now) ∧
    (w.get key ≠ none →
      (World.redis.SetNX key val expiration w).1 = .ok false ∧
      (World.redis.SetNX key val expiration w).2.data = w.data) ∧
    (w.get key = none →
      (World.redis.SetNX key val expiration w).1 = .ok true ∧
      ((World.redis.SetNX key val expiration w).2.get key).map Entry.value = some val) := by
  have hs := World.send_answered (World.setnx key val expiration) w h
  have hs1 : World.redis.SetNX key val expiration w
      = World.setnx key val expiration { w with faults := w.faults.tail } := hs
  rw [hs1] at h ⊢
  obtain ⟨⟨hn, -, -⟩, -, -, hf, ht, hpres, habs⟩ :=
    World.setnx_spec key val expiration { w with faults := w.faults.tail }
  have hg : World.get { w with faults := w.faults.tail } key = w.get key := rfl
  rw [hg] at hf ht hpres habs
  refine ⟨hn, ?_, ?_⟩
  · intro hp
    cases hr : (World.setnx key val expiration { w with faults := w.faults.tail }).1 with
    | error e => exact absurd hr (h e)
    | ok b =>
      have hb := hpres hp b hr
      subst hb
      exact ⟨rfl, by rw [(hf hr).1]⟩
  · intro ha
    cases hr : (World.setnx key val expiration { w with faults := w.faults.tail }).1 with
    | error e => exact absurd hr (h e)
    | ok b =>
      have hb := habs ha b hr
      subst hb
      exact ⟨rfl, (ht hr).2⟩

theorem World.valuer_store (w : World) :
    (World.client.valuer w).2.now = w.now ∧ (World.client.valuer w).2.data = w.data := by
  simp only [World.client, NewClient, uuid.New, World.read]
  split <;> exact ⟨rfl, rfl⟩

theorem UUID.hex_length (u : UUID) (i j : Nat) : (u.hex i j).length = 2 * (j - i) := by
  simp [UUID.hex, hexByte, List.length_flatten, Function.comp_def, Nat.mul_comm]

theorem UUID.String_length (u : UUID) : u.String.length = 36 := by
  simp [UUID.String, String.length, UUID.hex_length]

theorem World.valuer_eq (w : World) :
    (World.client.valuer w).1
      = UUID.String ⟨((w.rand.headD (List.replicate 16 0)).set 6
          ((w.rand.headD (List.replicate 16 0)).getD 6 0 % 16 + 64)).set 8
          ((w.rand.headD (List.replicate 16 0)).getD 8 0 % 64 + 128)⟩ ∧
    (World.client.valuer w).2.rand = w.rand.tail ∧
    (World.client.valuer w).2.now = w.now ∧ (World.client.valuer w).2.data = w.data := by
  obtain ⟨now, data, faults, rand⟩ := w
  cases rand <;> exact ⟨rfl, rfl, rfl, rfl⟩

/-- C1: `TryLock` makes exactly one set-if-absent call, carrying the token just
generated: the string of the version-4 UUID made of the next sixteen bytes of
the random source, which the call consumes; the token has 36 characters and is
not empty.  (a) When that call fails with an error, `TryLock` returns no lock
and that very error.  (b) When the call is answered and the key is present, it
returns `ErrFailedToPreemptLock` and the keyspace is unchanged.  (c) When the
call is answered and the key is absent, it returns a lock whose key is the given
key, whose token is the generated token, whose lease duration is the given
expiration and whose stop signal is unfired, and the token is now stored at the
key.  Consequently a second `TryLock` on the key, run on the world the first one
left and answered by the store, returns `ErrFailedToPreemptLock`. -/
theorem Client.TryLock_contract (key : String) (expiration : Duration) (w : World) :
    let tok := (World.client.valuer w).1
    let res := (World.redis.SetNX key tok expiration (World.client.valuer w).2).1
    let out := World.client.TryLock key expiration w
    out.2.1 = [Ev.SetNX key tok expiration res] ∧
    (tok = UUID.String ⟨((w.rand.headD (List.replicate 16 0)).set 6
          ((w.rand.headD (List.replicate 16 0)).getD 6 0 % 16 + 64)).set 8
          ((w.rand.headD (List.replicate 16 0)).getD 8 0 % 64 + 128)⟩ ∧
      (World.client.valuer w).2.rand = w.rand.tail ∧
      tok.length = 36 ∧ tok ≠ "") ∧
    (∀ e, res = .error e → out.1 = .error e) ∧
    ((∀ e, res ≠ .error e) → w.get key ≠ none →
      out.1 = .error Err.ErrFailedToPreemptLock ∧
      out.2.2.data = w.data ∧ out.2.2.now = w.now) ∧
    ((∀ e, res ≠ .error e) → w.get key = none →
      out.1 = .ok { key := key, value := tok, expiration := expiration,
                    unlock := ⟨1, 0, false⟩, singnalUnlockOnce := false } ∧
      (out.2.2.get key).map Entry.value = some tok) ∧
    (∀ l expiration2, out.1 = .ok l →
      (∀ e, (World.redis.SetNX key (World.client.valuer out.2.2).1 expiration2
          (World.client.valuer out.2.2).2).1 ≠ .error e) →
      (World.client.TryLock key expiration2 out.2.2).1 = .error Err.ErrFailedToPreemptLock) := by
  intro tok res out
  have hcl : World.client.client = World.redis := rfl
  have htr := Client.TryLock_trace World.client key expiration w
  rw [hcl] at htr
  have hval := World.valuer_store w
  have hget : (World.client.valuer w).2.get key = w.get key :=
    World.get_congr _ _ hval.1 hval.2 key
  have hw2 : out.2.2 = (World.redis.SetNX key tok expiration (World.client.valuer w).2).2 := by
    simp only [out, htr, tok]
  refine ⟨by simp only [out, htr, tok, res], ?_, ?_, ?_, ?_, ?_⟩
  · refine ⟨(World.valuer_eq w).1, (World.valuer_eq w).2.1, ?_, ?_⟩
    · simp only [tok, World.client, NewClient]
      exact UUID.String_length _
    · simp only [tok, World.client, NewClient]
      exact UUID.String_ne_empty _
  · intro e he
    exact Client.TryLock_error World.client key expiration w e he
  · intro hne hp
    obtain ⟨hn, hpres, -⟩ := World.SetNX_answered key tok expiration _ hne
    rw [hget] at hpres
    obtain ⟨hr, hd⟩ := hpres hp
    refine ⟨Client.TryLock_false World.client key expiration w hr, ?_, ?_⟩
    · rw [hw2, hd, hval.2]
    · rw [hw2, hn, hval.1]
  · intro hne ha
    obtain ⟨-, -, habs⟩ := World.SetNX_answered key tok expiration _ hne
    rw [hget] at habs
    obtain ⟨hr, hst⟩ := habs ha
    exact ⟨Client.TryLock_true World.client key expiration w hr, by rw [hw2]; exact hst⟩
  · intro l expiration2 hl hne2
    -- the first call stored the key
    have hres : ∀ e, res ≠ .error e := by
      intro e he
      have := Client.TryLock_error World.client key expiration w e he
      simp only [out] at hl
      rw [hl] at this
      cases this
    have hstored : out.2.2.get key ≠ none := by
      obtain ⟨-, hpres, habs⟩ := World.SetNX_answered key tok expiration _ hres
      rw [hget] at hpres habs
      by_cases hp : w.get key = none
      · have h2 := (habs hp).2
        rw [← hw2] at h2
        intro hc
        rw [hc] at h2
        cases h2
      · have h1 := Client.TryLock_false World.client key expiration w (hpres hp).1
        simp only [out] at hl
        rw [hl] at h1
        cases h1
    have hval2 := World.valuer_store out.2.2
    have hget2 : (World.client.valuer out.2.2).2.get key = out.2.2.get key :=
      World.get_congr _ _ hval2.1 hval2.2 key
    obtain ⟨-, hpres2, -⟩ := World.SetNX_answered key _ expiration2 _ hne2
    rw [hget2] at hpres2
    exact Client.TryLock_false World.client key expiration2 out.2.2 (hpres2 hstored).1


/-- Scenario 1 of the specification: on an empty store `TryLock("job:42", 60s)`
returns a lock holding the generated token, and a second `TryLock` is refused. -/
theorem Client.TryLock_contract_witness :
    (World.client.TryLock "job:42" minute World.fresh).1
      = .ok { key := "job:42", value := (World.client.valuer World.fresh).1,
              expiration := minute, unlock := ⟨1, 0, false⟩, singnalUnlockOnce := false } ∧
    (World.client.valuer World.fresh).1 = "01020304-0506-4708-890a-0b0c0d0e0fff" ∧
    (World.client.TryLock "job:42" minute
        (World.client.TryLock "job:42" minute World.fresh).2.2).1
      = .error Err.ErrFailedToPreemptLock :=
  ⟨((Client.TryLock_contract "job:42" minute World.fresh).2.2.2.2.1
      (by intro e h; cases h) (by decide)).1,
   by decide,
   (Client.TryLock_contract "job:42" minute World.fresh).2.2.2.2.2
      (newLock "job:42" (World.client.valuer World.fresh).1 minute) minute
      (by decide) (by intro e h; cases h)⟩

/-! ## Lock -/

section loop
variable {ω ρ : Type} (c : Client ω) (ctx : Context) (key val : String)
  (expiration : Duration) (retry : RetryStrategy ρ)

theorem Client.Lock.loop_deadline (fuel : Nat) (s : LoopState ω ρ) (e : Err)
    (h : (c.client.Eval Script.luaLock [key]
      [Arg.str val, Arg.float expiration.Seconds] s.w).1 = .error e)
    (hd : errors.Is e Err.DeadlineExceeded = true) :
    Client.Lock.loop c ctx key val expiration retry (fuel + 1) s =
      (some (.error e), [attempt key val expiration (.error e)],
        { s with w := (c.client.Eval Script.luaLock [key]
          [Arg.str val, Arg.float expiration.Seconds] s.w).2 }) := by
  simp [Client.Lock.loop, h, hd, Cmd.Result, attempt]

theorem Client.Lock.loop_OK (fuel : Nat) (s : LoopState ω ρ)
    (h : (c.client.Eval Script.luaLock [key]
      [Arg.str val, Arg.float expiration.Seconds] s.w).1 = .ok (Val.str "OK")) :
    Client.Lock.loop c ctx key val expiration retry (fuel + 1) s =
      (some (.ok (newLock key val expiration)), [attempt key val expiration (.ok (Val.str "OK"))],
        { s with w := (c.client.Eval Script.luaLock [key]
          [Arg.str val, Arg.float expiration.Seconds] s.w).2 }) := by
  simp [Client.Lock.loop, h, Cmd.Result, attempt]

theorem Client.Lock.loop_retry (fuel : Nat) (s : LoopState ω ρ)
    (h : retryable (c.client.Eval Script.luaLock [key]
      [Arg.str val, Arg.float expiration.Seconds] s.w).1) :
    Client.Lock.loop c ctx key val expiration retry (fuel + 1) s =
      (let cmd := c.client.Eval Script.luaLock [key]
          [Arg.str val, Arg.float expiration.Seconds] s.w
       let nx := retry.Next s.r
       let ev := attempt key val expiration cmd.1
       if nx.1.2 = false then
         (some (.error (exhausted cmd.1)), [ev, Ev.Next nx.1.1 false],
           { w := cmd.2, r := nx.2, waits := s.waits })
       else
         match ctx s.waits with
         | some e => (some (.error e), [ev, Ev.Next nx.1.1 true, Ev.Wait nx.1.1 (some e)],
             { w := cmd.2, r := nx.2, waits := s.waits + 1 })
         | none =>
           let rest := Client.Lock.loop c ctx key val expiration retry fuel
             { w := cmd.2, r := nx.2, waits := s.waits + 1 }
           (rest.1, ev :: Ev.Next nx.1.1 true :: Ev.Wait nx.1.1 none :: rest.2.1, rest.2.2)) := by
  obtain ⟨hde, hok⟩ := h
  cases hc : (c.client.Eval Script.luaLock [key]
      [Arg.str val, Arg.float expiration.Seconds] s.w).1 with
  | error e =>
    have := hde e hc
    cases hn : (retry.Next s.r).1.2 <;>
      simp [Client.Lock.loop, hc, this, Cmd.Result, attempt, exhausted, hn]
  | ok v =>
    have hv : v ≠ Val.str "OK" := by
      intro hv; rw [hv] at hc; exact hok hc
    cases hn : (retry.Next s.r).1.2 <;>
      simp [Client.Lock.loop, hc, hv, Cmd.Result, attempt, exhausted, hn]

end loop

theorem attempts_contended {ρ : Type} (replies : Nat → Except Err Val) (key tok : String)
    (expiration : Duration) (retry : RetryStrategy ρ) (r0 : ρ) (n : Nat) :
    ∀ a, attempts (contended replies key tok expiration retry r0 a n) =
      (List.range n).map (fun i => attempt key tok expiration (replies (a + i))) := by
  induction n with
  | zero => intro a; rfl
  | succ n ih =>
    intro a
    rw [List.range_succ_eq_map]
    simp only [contended, attempts, List.map_cons, List.map_map] at ih ⊢
    simp only [attempt, List.filter_cons_of_pos, List.filter_cons] at ih ⊢
    simp only [Bool.false_eq_true, if_false, Nat.add_zero, List.cons.injEq, true_and]
    rw [ih (a + 1)]
    apply List.map_congr_left
    intro i _
    simp only [Function.comp]
    rw [Nat.add_assoc, Nat.add_comm 1 i]

theorem Client.Lock.loop_contended {ρ : Type} (replies : Nat → Except Err Val)
    (token : Nat → String) (ctx : Context) (key tok : String) (expiration : Duration)
    (retry : RetryStrategy ρ) (r0 : ρ) (hctx : ∀ n, ctx n = none) (n : Nat) :
    ∀ (a t fuel : Nat),
      (∀ i, a ≤ i → i < a + n → retryable (replies i)) →
      (∀ i, a ≤ i → i < a + n → (retry.Next (retry.after r0 i)).1.2 = true) →
      Client.Lock.loop (Oracle.client replies token) ctx key tok expiration retry (n + fuel)
          { w := ⟨a, t⟩, r := retry.after r0 a, waits := a } =
        ((Client.Lock.loop (Oracle.client replies token) ctx key tok expiration retry fuel
            { w := ⟨a + n, t⟩, r := retry.after r0 (a + n), waits := a + n }).1,
          contended replies key tok expiration retry r0 a n ++
          (Client.Lock.loop (Oracle.client replies token) ctx key tok expiration retry fuel
            { w := ⟨a + n, t⟩, r := retry.after r0 (a + n), waits := a + n }).2.1,
          (Client.Lock.loop (Oracle.client replies token) ctx key tok expiration retry fuel
            { w := ⟨a + n, t⟩, r := retry.after r0 (a + n), waits := a + n }).2.2) := by
  induction n with
  | zero => intro a t fuel _ _; simp [contended]
  | succ n ih =>
    intro a t fuel hr hn
    have h1 : retryable (((Oracle.client replies token).client.Eval Script.luaLock [key]
        [Arg.str tok, Arg.float expiration.Seconds] (⟨a, t⟩ : Oracle)).1) :=
      hr a (Nat.le_refl a) (by omega)
    have hf : n + 1 + fuel = (n + fuel) + 1 := by omega
    rw [hf, Client.Lock.loop_retry _ _ _ _ _ _ _ _ h1]
    have h2 := hn a (Nat.le_refl a) (by omega)
    simp only [h2, hctx, Bool.true_eq_false, if_false]
    have ih' := ih (a + 1) t fuel (fun i hi hi2 => hr i (by omega) (by omega))
      (fun i hi hi2 => hn i (by omega) (by omega))
    have e1 : a + 1 + n = a + (n + 1) := by omega
    rw [e1] at ih'
    have hs : ((Oracle.client replies token).client.Eval Script.luaLock [key]
        [Arg.str tok, Arg.float expiration.Seconds] (⟨a, t⟩ : Oracle)) =
        (replies a, ⟨a + 1, t⟩) := rfl
    simp only [hs]
    have hr1 : (retry.Next (retry.after r0 a)).2 = retry.after r0 (a + 1) := rfl
    rw [hr1, ih']
    simp [contended]

/-- The fixed-interval strategy with `Max = K` allows exactly `K` retries. -/
theorem FixIntervalRetry.allows_Max (d : Duration) (K : Nat) :
    FixIntervalRetry.strategy.allows ⟨d, K, 0⟩ K := by
  have h : ∀ n, (FixIntervalRetry.strategy.after ⟨d, K, 0⟩ n) = ⟨d, K, n⟩ := by
    intro n
    induction n with
    | zero => rfl
    | succ n ih => simp only [RetryStrategy.after, ih]; rfl
  constructor
  · intro i hi
    rw [h]; simp [FixIntervalRetry.strategy]; omega
  · rw [h]; simp [FixIntervalRetry.strategy]

theorem attempts_append (xs ys : List Ev) : attempts (xs ++ ys) = attempts xs ++ attempts ys := by
  simp [attempts]

/-- C2: a `Lock` call over a store answering attempt number `n + 1` with
`replies n`, with no cancellation, no deadline-exceeded answer, a strategy that
allows exactly `K` retries, and the first "OK" answer, if any within `K + 1`
attempts, on attempt `j`: the call issues exactly `min j (K + 1)` acquire
attempts, all with the given key, the given expiration and the one token drawn
at the start (a single token is drawn); when `j ≤ K + 1` it returns a lock whose
key is that key, whose token is that token, whose lease duration is that
expiration and whose stop signal is unfired, and otherwise it returns the
retries-exhausted error built from the answer to attempt `K + 1`. -/
theorem Client.Lock_attempts {ρ : Type} (replies : Nat → Except Err Val) (token : Nat → String)
    (ctx : Context) (key : String) (expiration : Duration) (retry : RetryStrategy ρ) (r0 : ρ)
    (K j fuel : Nat)
    (hctx : ∀ n, ctx n = none)
    (hde : ∀ n e, replies n = .error e → errors.Is e Err.DeadlineExceeded = false)
    (hK : retry.allows r0 K)
    (hj : 1 ≤ j)
    (hfirst : ∀ n, n + 1 < j → replies n ≠ .ok (Val.str "OK"))
    (hOK : j ≤ K + 1 → replies (j - 1) = .ok (Val.str "OK"))
    (hfuel : min j (K + 1) ≤ fuel) :
    attempts ((Oracle.client replies token).Lock ctx key expiration retry fuel ⟨0, 0⟩ r0).2.1
      = (List.range (min j (K + 1))).map
          (fun n => attempt key (token 0) expiration (replies n)) ∧
    ((Oracle.client replies token).Lock ctx key expiration retry fuel ⟨0, 0⟩ r0).2.2.w.tokens = 1 ∧
    (j ≤ K + 1 →
      ((Oracle.client replies token).Lock ctx key expiration retry fuel ⟨0, 0⟩ r0).1
        = some (.ok { key := key, value := token 0, expiration := expiration,
                      unlock := ⟨1, 0, false⟩, singnalUnlockOnce := false })) ∧
    (K + 1 < j →
      ((Oracle.client replies token).Lock ctx key expiration retry fuel ⟨0, 0⟩ r0).1
        = some (.error (exhausted (replies K)))) := by
  have hL : (Oracle.client replies token).Lock ctx key expiration retry fuel ⟨0, 0⟩ r0 =
      Client.Lock.loop (Oracle.client replies token) ctx key (token 0) expiration retry fuel
        { w := ⟨0, 1⟩, r := retry.after r0 0, waits := 0 } := rfl
  rw [hL]
  have hretry : ∀ i, i + 1 < j → retryable (replies i) :=
    fun i hi => ⟨fun e he => hde i e he, hfirst i hi⟩
  by_cases hcase : j ≤ K + 1
  · -- the attempt number j is answered OK
    obtain ⟨f, hf⟩ : ∃ f, fuel = (j - 1) + (f + 1) := ⟨fuel - j, by omega⟩
    have hmin : min j (K + 1) = (j - 1) + 1 := by omega
    have hc := Client.Lock.loop_contended replies token ctx key (token 0) expiration retry r0
      hctx (j - 1) 0 1 (f + 1) (fun i _ hi => hretry i (by omega))
      (fun i _ hi => hK.1 i (by omega))
    have hok := Client.Lock.loop_OK (Oracle.client replies token) ctx key (token 0) expiration
      retry f { w := ⟨0 + (j - 1), 1⟩, r := retry.after r0 (0 + (j - 1)), waits := 0 + (j - 1) }
      (by simpa using hOK hcase)
    rw [hf, hc, hok, hmin]
    refine ⟨?_, rfl, fun _ => rfl, fun h => absurd h (by omega)⟩
    rw [attempts_append, attempts_contended, List.range_succ, List.map_append]
    have h2 : replies (j - 1) = .ok (Val.str "OK") := hOK hcase
    simp [attempts, attempt, h2]
  · -- all K + 1 attempts are contended and the strategy is exhausted
    obtain ⟨f, hf⟩ : ∃ f, fuel = K + (f + 1) := ⟨fuel - (K + 1), by omega⟩
    have hmin : min j (K + 1) = K + 1 := by omega
    have hc := Client.Lock.loop_contended replies token ctx key (token 0) expiration retry r0
      hctx K 0 1 (f + 1) (fun i _ hi => hretry i (by omega))
      (fun i _ hi => hK.1 i (by omega))
    have hr : retryable (((Oracle.client replies token).client.Eval Script.luaLock [key]
        [Arg.str (token 0), Arg.float expiration.Seconds] (⟨0 + K, 1⟩ : Oracle)).1) := by
      have := hretry K (by omega)
      simpa [Oracle.client, Oracle.redis] using this
    have hex := Client.Lock.loop_retry (Oracle.client replies token) ctx key (token 0) expiration
      retry f { w := ⟨0 + K, 1⟩, r := retry.after r0 (0 + K), waits := 0 + K } hr
    have hno : (retry.Next (retry.after r0 (0 + K))).1.2 = false := by simpa using hK.2
    simp only [hno, if_true] at hex
    rw [hf, hc, hex, hmin]
    refine ⟨?_, rfl, fun h => absurd h hcase, fun _ => ?_⟩
    · rw [attempts_append, attempts_contended, List.range_succ, List.map_append]
      simp [attempts, attempt, Oracle.client, Oracle.redis]
    · simp [Oracle.client, Oracle.redis]

/-- Scenario 4 of the specification: three retries allowed, the key held during
two attempts and free at the third. -/
theorem Client.Lock_attempts_witness :
    attempts ((Oracle.client Oracle.heldTwice (fun _ => "t")).Lock (fun _ => none) "k" minute
        FixIntervalRetry.strategy 5 ⟨0, 0⟩ ⟨⟨100000000⟩, 3, 0⟩).2.1
      = (List.range (min 3 (3 + 1))).map
          (fun n => attempt "k" "t" minute (Oracle.heldTwice n)) ∧
    ((Oracle.client Oracle.heldTwice (fun _ => "t")).Lock (fun _ => none) "k" minute
        FixIntervalRetry.strategy 5 ⟨0, 0⟩ ⟨⟨100000000⟩, 3, 0⟩).1
      = some (.ok { key := "k", value := "t", expiration := minute,
                    unlock := ⟨1, 0, false⟩, singnalUnlockOnce := false }) :=
  have h := Client.Lock_attempts Oracle.heldTwice (fun _ => "t") (fun _ => none) "k" minute
    FixIntervalRetry.strategy ⟨⟨100000000⟩, 3, 0⟩ 3 3 5 (fun _ => rfl)
    (by intro n e h; rcases n with _ | _ | _ | n <;> simp [Oracle.heldTwice] at h; subst h; rfl)
    (FixIntervalRetry.allows_Max _ _) (by decide)
    (by intro n hn; rcases n with _ | _ | n <;> simp [Oracle.heldTwice] at hn ⊢; omega)
    (fun _ => rfl) (by decide)
  ⟨h.1, h.2.2.1 (by decide)⟩

theorem RetryStrategy.after_Next {ρ : Type} (retry : RetryStrategy ρ) (r : ρ) (n : Nat) :
    retry.after (retry.Next r).2 n = retry.after r (n + 1) := by
  induction n with
  | zero => rfl
  | succ n ih => simp only [RetryStrategy.after, ih]

/-- Every answer is "OK", a deadline-exceeded error, or retryable. -/
theorem retryable_or (res : Except Err Val) :
    res = .ok (Val.str "OK") ∨ (∃ e, res = .error e ∧ errors.Is e Err.DeadlineExceeded = true) ∨
      retryable res := by
  cases res with
  | error e =>
    cases h : errors.Is e Err.DeadlineExceeded
    · right; right
      refine ⟨?_, by simp⟩
      intro e' he'
      cases he'
      exact h
    · right; left; exact ⟨e, rfl, h⟩
  | ok v =>
    by_cases hv : v = Val.str "OK"
    · left; rw [hv]
    · right; right
      exact ⟨by simp, by simpa using hv⟩

theorem Client.Lock.loop_deadline_last {ω ρ : Type} (c : Client ω) (ctx : Context)
    (key val : String) (expiration : Duration) (retry : RetryStrategy ρ) (e : Err)
    (keys : List String) (args : List Arg)
    (hd : errors.Is e Err.DeadlineExceeded = true) (fuel : Nat) :
    ∀ (s : LoopState ω ρ) (pre post : List Ev),
      (Client.Lock.loop c ctx key val expiration retry fuel s).2.1
        = pre ++ Ev.Eval Script.luaLock keys args (.error e) :: post →
      post = [] ∧
      (Client.Lock.loop c ctx key val expiration retry fuel s).1 = some (.error e) ∧
      (Client.Lock.loop c ctx key val expiration retry fuel s).2.2.r
        = retry.after s.r (nexts pre).length ∧
      (Client.Lock.loop c ctx key val expiration retry fuel s).2.2.waits
        = s.waits + (waits pre).length := by
  induction fuel with
  | zero =>
    intro s pre post h
    simp [Client.Lock.loop] at h
  | succ fuel ih =>
    intro s pre post h
    rcases retryable_or (c.client.Eval Script.luaLock [key]
      [Arg.str val, Arg.float expiration.Seconds] s.w).1 with hok | ⟨e', he', hd'⟩ | hr
    · rw [Client.Lock.loop_OK c ctx key val expiration retry fuel s hok] at h
      rcases pre with _ | ⟨p, pre⟩
      · simp [attempt] at h
      · simp at h
    · rw [Client.Lock.loop_deadline c ctx key val expiration retry fuel s e' he' hd'] at h ⊢
      rcases pre with _ | ⟨p, pre⟩
      · simp [attempt] at h
        obtain ⟨⟨-, -, he⟩, hp⟩ := h
        subst he
        subst hp
        simp [nexts, waits, RetryStrategy.after]
      · simp at h
    · rw [Client.Lock.loop_retry c ctx key val expiration retry fuel s hr] at h ⊢
      have hne : ∀ keys args, attempt key val expiration (c.client.Eval Script.luaLock [key]
          [Arg.str val, Arg.float expiration.Seconds] s.w).1
          ≠ Ev.Eval Script.luaLock keys args (.error e) := by
        intro keys args heq
        simp only [attempt, Ev.Eval.injEq] at heq
        have := hr.1 e heq.2.2.2
        rw [hd] at this
        cases this
      simp only at h ⊢
      cases hnx : (retry.Next s.r).1.2
      · simp only [hnx, eq_self_iff_true, if_true] at h
        rcases pre with _ | ⟨p, _ | ⟨q, pre⟩⟩
        · simp at h; exact absurd h.1 (hne _ _)
        · simp at h
        · simp at h
      · simp only [hnx, Bool.true_eq_false, if_false] at h ⊢
        cases hctx : ctx s.waits with
        | some e1 =>
          simp only [hctx] at h
          rcases pre with _ | ⟨p, _ | ⟨q, _ | ⟨r, pre⟩⟩⟩
          · simp at h; exact absurd h.1 (hne _ _)
          · simp at h
          · simp at h
          · simp at h
        | none =>
          simp only [hctx] at h ⊢
          rcases pre with _ | ⟨p, _ | ⟨q, _ | ⟨r, pre⟩⟩⟩
          · simp at h; exact absurd h.1 (hne _ _)
          · simp at h
          · simp at h
          · simp only [List.cons_append, List.cons.injEq] at h
            obtain ⟨hp, hq, hrr, hrest⟩ := h
            obtain ⟨h1, h2, h3, h4⟩ := ih _ pre post hrest
            refine ⟨h1, h2, ?_, ?_⟩
            · rw [h3, ← hp, ← hq, ← hrr]
              simp [nexts, attempt, RetryStrategy.after_Next]
            · rw [h4, ← hp, ← hq, ← hrr]
              simp [waits, attempt]
              omega

/-- C3: in any `Lock` call, an acquire attempt that fails with an error matching
`context.DeadlineExceeded` under `errors.Is` is the last event of the call: no
`Next`, no wait and no further attempt follows it.  The call returns no lock and
that very error, and the strategy is left in the state reached by the `Next`
calls made before the attempt, whatever it would still allow. -/
theorem Client.Lock_deadline_exceeded {ω ρ : Type} (c : Client ω) (ctx : Context)
    (key : String) (expiration : Duration) (retry : RetryStrategy ρ) (fuel : Nat) (w : ω) (r : ρ)
    (pre post : List Ev) (keys : List String) (args : List Arg) (e : Err)
    (hd : errors.Is e Err.DeadlineExceeded = true)
    (h : (c.Lock ctx key expiration retry fuel w r).2.1
      = pre ++ Ev.Eval Script.luaLock keys args (.error e) :: post) :
    post = [] ∧
    (c.Lock ctx key expiration retry fuel w r).1 = some (.error e) ∧
    (c.Lock ctx key expiration retry fuel w r).2.2.r = retry.after r (nexts pre).length ∧
    (c.Lock ctx key expiration retry fuel w r).2.2.waits = (waits pre).length := by
  have := Client.Lock.loop_deadline_last c ctx key (c.valuer w).1 expiration retry e keys args
    hd fuel { w := (c.valuer w).2, r := r, waits := 0 } pre post h
  simpa [Client.Lock] using this

/-- A call allowed three retries whose second attempt times out: it returns the
timeout after one `Next` and one wait. -/
theorem Client.Lock_deadline_exceeded_witness :
    ((Oracle.client Oracle.timesOut (fun _ => "t")).Lock (fun _ => none) "k" minute
        FixIntervalRetry.strategy 5 ⟨0, 0⟩ ⟨⟨100000000⟩, 3, 0⟩).1
      = some (.error (Err.wrapf "read tcp: %w" Err.DeadlineExceeded)) ∧
    ((Oracle.client Oracle.timesOut (fun _ => "t")).Lock (fun _ => none) "k" minute
        FixIntervalRetry.strategy 5 ⟨0, 0⟩ ⟨⟨100000000⟩, 3, 0⟩).2.2.r
      = ⟨⟨100000000⟩, 3, 1⟩ :=
  have h := Client.Lock_deadline_exceeded (Oracle.client Oracle.timesOut (fun _ => "t"))
    (fun _ => none) "k" minute FixIntervalRetry.strategy 5 ⟨0, 0⟩ ⟨⟨100000000⟩, 3, 0⟩
    [attempt "k" "t" minute (.ok (Val.str "")), Ev.Next ⟨100000000⟩ true,
      Ev.Wait ⟨100000000⟩ none] []
    ["k"] [Arg.str "t", Arg.float minute.Seconds]
    (Err.wrapf "read tcp: %w" Err.DeadlineExceeded) (by decide) (by decide)
  ⟨h.2.1, h.2.2.1⟩

/-- C4, the code at the failing input: one retry allowed, the first attempt
fails on the connection with `EOF`, the second finds the key held.  The call
issues both attempts and returns the exhausted error that wraps
`ErrFailedToPreemptLock`; the error of the first attempt is not in its chain. -/
theorem Client.Lock_exhausted_drops_error :
    attempts ((Oracle.client Oracle.lostThenHeld (fun _ => "t")).Lock (fun _ => none) "k" minute
        FixIntervalRetry.strategy 5 ⟨0, 0⟩ ⟨⟨100000000⟩, 1, 0⟩).2.1
      = [attempt "k" "t" minute (.error (Err.other "EOF")),
         attempt "k" "t" minute (.ok (Val.str ""))] ∧
    ((Oracle.client Oracle.lostThenHeld (fun _ => "t")).Lock (fun _ => none) "k" minute
        FixIntervalRetry.strategy 5 ⟨0, 0⟩ ⟨⟨100000000⟩, 1, 0⟩).1
      = some (.error (exhausted (.ok (Val.str "")))) ∧
    errors.Is (exhausted (.ok (Val.str ""))) Err.ErrFailedToPreemptLock = true ∧
    errors.Is (exhausted (.ok (Val.str ""))) (Err.other "EOF") = false := by
  decide

/-! ## The store -/

/-- A command either is answered, and then it ran on the world with the fault
consumed, or fails with the error of the fault, having run or not. -/
theorem World.send_cases {α : Type} (op : World → Except Err α × World) (w : World) :
    ((∀ e, (World.send op w).1 ≠ .error e) ∧
      World.send op w = op { w with faults := w.faults.tail }) ∨
    (∃ e, (World.send op w).1 = .error e ∧
      ((World.send op w).2 = (op { w with faults := w.faults.tail }).2 ∨
       (World.send op w).2 = { w with faults := w.faults.tail })) := by
  by_cases h : ∀ e, (World.send op w).1 ≠ .error e
  · exact Or.inl ⟨h, World.send_answered op w h⟩
  · right
    push_neg at h
    obtain ⟨e, he⟩ := h
    refine ⟨e, he, ?_⟩
    unfold World.send
    simp only
    split
    · split
      · left; rfl
      · right; rfl
    · left; rfl

theorem Release_spec (key token : String) (w : World) :
    (Release key token w).2.now = w.now ∧
    (Release key token w).2.faults = w.faults ∧
    (∀ k, k ≠ key → (Release key token w).2.data k = w.data k) ∧
    ((w.get key).map Entry.value = some token →
      (Release key token w).1 = Val.int 1 ∧
      (Release key token w).2.data key = none) ∧
    ((w.get key).map Entry.value ≠ some token →
      (Release key token w).1 = Val.int 0 ∧ (Release key token w).2 = w) := by
  unfold Release
  by_cases h : (w.get key).map Entry.value = some token
  · rw [if_pos h]
    exact ⟨rfl, rfl, fun k hk => by simp [World.put, hk],
      fun _ => ⟨rfl, by simp [World.put]⟩, fun hc => absurd h hc⟩
  · rw [if_neg h]
    exact ⟨rfl, rfl, fun _ _ => rfl, fun hc => absurd hc h, fun _ => ⟨rfl, rfl⟩⟩

/-! ## Unlock -/

theorem Lock.signalUnlock_ok (l : Lock) (hl : l.wf) :
    ∃ l1 evs, l.signalUnlock = .ok (l1, evs) ∧ l1.key = l.key ∧ l1.value = l.value ∧
      l1.expiration = l.expiration ∧ l1.wf ∧ l1.singnalUnlockOnce = true ∧
      (l.singnalUnlockOnce = true → l1 = l ∧ evs = []) ∧
      (l.singnalUnlockOnce = false → evs = [Ev.Send, Ev.Close] ∧ l1.unlock = ⟨1, 1, true⟩) := by
  cases ho : l.singnalUnlockOnce
  · have hu := hl.1 ho
    refine ⟨{ l with unlock := ⟨1, 1, true⟩, singnalUnlockOnce := true }, [Ev.Send, Ev.Close],
      ?_, rfl, rfl, rfl, ?_, rfl, (fun h => Bool.noConfusion h), (fun _ => ⟨rfl, rfl⟩)⟩
    · simp [Lock.signalUnlock, ho, hu, Chan.send, Chan.close, Chan.make]
    · exact ⟨(fun h => Bool.noConfusion h), (fun _ => ⟨rfl, rfl, Nat.le_refl 1⟩)⟩
  · refine ⟨l, [], by simp [Lock.signalUnlock, ho], rfl, rfl, rfl, hl, ho,
      (fun _ => ⟨rfl, rfl⟩), (fun h => Bool.noConfusion h)⟩

/-- One `Unlock` call on a well-formed handle completes; its result is read off
the answer to the release command. -/
theorem Lock.Unlock_ok {ω : Type} (client : Cmdable ω) (l : Lock) (w : ω) (hl : l.wf) :
    ∃ ret l1 evs, l.Unlock client w = .ok (ret, l1,
        Ev.Eval Script.luaUnlock [l.key] [Arg.str l.value]
          (client.Eval Script.luaUnlock [l.key] [Arg.str l.value] w).1 :: evs,
        (client.Eval Script.luaUnlock [l.key] [Arg.str l.value] w).2) ∧
      l1.key = l.key ∧ l1.value = l.value ∧ l1.expiration = l.expiration ∧
      l1.wf ∧ l1.singnalUnlockOnce = true ∧
      (l.singnalUnlockOnce = true → l1 = l ∧ evs = []) ∧
      (l.singnalUnlockOnce = false → evs = [Ev.Send, Ev.Close] ∧ l1.unlock = ⟨1, 1, true⟩) ∧
      (∀ e, (client.Eval Script.luaUnlock [l.key] [Arg.str l.value] w).1 = .error e →
        ret = some (if e = Err.Nil then Err.ErrLockNotHold else e)) ∧
      (∀ n, (client.Eval Script.luaUnlock [l.key] [Arg.str l.value] w).1 = .ok (Val.int n) →
        ret = if n = 1 then none else some Err.ErrLockNotHold) := by
  obtain ⟨l1, evs, hs, hk, hv, hx, hwf, ho, h1, h2⟩ := Lock.signalUnlock_ok l hl
  unfold Lock.Unlock
  simp only [hs]
  refine ⟨_, l1, evs, rfl, hk, hv, hx, hwf, ho, h1, h2, ?_, ?_⟩
  · intro e he
    by_cases hn : e = Err.Nil <;> simp [he, Cmd.Int64, hn]
  · intro n hn
    by_cases h1 : n = 1 <;> simp [hn, Cmd.Int64, h1]

/-- The release command of a lock on a world, with what it does to the store. -/
theorem World.release_cases (l : Lock) (w : World) :
    (∀ k, k ≠ l.key ∨ (w.get k).map Entry.value ≠ some l.value →
      (World.redis.Eval Script.luaUnlock [l.key] [Arg.str l.value] w).2.data k = w.data k) ∧
    (World.redis.Eval Script.luaUnlock [l.key] [Arg.str l.value] w).2.now = w.now ∧
    ((∀ e, (World.redis.Eval Script.luaUnlock [l.key] [Arg.str l.value] w).1 ≠ .error e) →
      ((w.get l.key).map Entry.value = some l.value →
        (World.redis.Eval Script.luaUnlock [l.key] [Arg.str l.value] w).1 = .ok (Val.int 1) ∧
        (World.redis.Eval Script.luaUnlock [l.key] [Arg.str l.value] w).2.data l.key = none) ∧
      ((w.get l.key).map Entry.value ≠ some l.value →
        (World.redis.Eval Script.luaUnlock [l.key] [Arg.str l.value] w).1 = .ok (Val.int 0) ∧
        (World.redis.Eval Script.luaUnlock [l.key] [Arg.str l.value] w).2.data = w.data)) := by
  have hev : ∀ v : World, World.eval Script.luaUnlock [l.key] [Arg.str l.value] v =
      (.ok (Release l.key l.value v).1, (Release l.key l.value v).2) := fun v => rfl
  have hE : World.redis.Eval Script.luaUnlock [l.key] [Arg.str l.value] w =
      World.send (World.eval Script.luaUnlock [l.key] [Arg.str l.value]) w := rfl
  have hget : World.get { w with faults := w.faults.tail } l.key = w.get l.key := rfl
  obtain ⟨hn, -, hother, hmatch, hmis⟩ :=
    Release_spec l.key l.value { w with faults := w.faults.tail }
  rw [hget] at hmatch hmis
  have hframe : ∀ k, k ≠ l.key ∨ (w.get k).map Entry.value ≠ some l.value →
      (Release l.key l.value { w with faults := w.faults.tail }).2.data k = w.data k := by
    intro k hk
    rcases hk with hk | hk
    · exact hother k hk
    · by_cases hkk : k = l.key
      · subst hkk
        rw [(hmis hk).2]
      · exact hother k hkk
  refine ⟨?_, ?_, ?_⟩
  · intro k hk
    rw [hE]
    rcases World.send_cases (World.eval Script.luaUnlock [l.key] [Arg.str l.value]) w
      with ⟨-, hs⟩ | ⟨e, -, hs | hs⟩
    · rw [hs, hev]; exact hframe k hk
    · rw [hs, hev]; exact hframe k hk
    · rw [hs]
  · rw [hE]
    rcases World.send_cases (World.eval Script.luaUnlock [l.key] [Arg.str l.value]) w
      with ⟨-, hs⟩ | ⟨e, -, hs | hs⟩
    · rw [hs, hev]; exact hn
    · rw [hs, hev]; exact hn
    · rw [hs]
  · intro hans
    have hs := World.send_answered _ w (by rw [← hE]; exact hans)
    rw [← hE, hev] at hs
    refine ⟨fun hm => ?_, fun hm => ?_⟩
    · rw [hs]; exact ⟨by rw [(hmatch hm).1], (hmatch hm).2⟩
    · rw [hs]; exact ⟨by rw [(hmis hm).1], by simp only; rw [(hmis hm).2]⟩

theorem World.get_none_of_data (w : World) (key : String) (h : w.data key = none) :
    w.get key = none := by
  simp [World.get, h]

/-- C5: over the store whose Release operation deletes a key only if the stored
value equals the given token, an `Unlock` call on a lock handle completes and:
when the command is answered it returns nil exactly when the live value at the
key equalled the token of the lock, the key being deleted then, and returns
`ErrLockNotHold` with keyspace and clock unchanged when the key is absent or
holds another token; an error of the command other than the nil-reply marker is
returned as it is; answered or not, no entry other than that of its own key
holding its own token is changed.  An `Unlock` that returned nil followed by a
second, answered, `Unlock` on the same handle returns `ErrLockNotHold`. -/
theorem Lock.Unlock_contract (l : Lock) (w : World) (hl : l.wf) :
    ∃ ret l1 evs, l.Unlock World.redis w = .ok (ret, l1, evs,
        (World.redis.Eval Script.luaUnlock [l.key] [Arg.str l.value] w).2) ∧
      ((∀ e, (World.redis.Eval Script.luaUnlock [l.key] [Arg.str l.value] w).1 ≠ .error e) →
        (ret = none ↔ (w.get l.key).map Entry.value = some l.value) ∧
        (ret = none →
          (World.redis.Eval Script.luaUnlock [l.key] [Arg.str l.value] w).2.data l.key = none) ∧
        (ret ≠ none → ret = some Err.ErrLockNotHold ∧
          (World.redis.Eval Script.luaUnlock [l.key] [Arg.str l.value] w).2.data = w.data ∧
          (World.redis.Eval Script.luaUnlock [l.key] [Arg.str l.value] w).2.now = w.now)) ∧
      (∀ e, (World.redis.Eval Script.luaUnlock [l.key] [Arg.str l.value] w).1 = .error e →
        e ≠ Err.Nil → ret = some e) ∧
      (∀ k, k ≠ l.key ∨ (w.get k).map Entry.value ≠ some l.value →
        (World.redis.Eval Script.luaUnlock [l.key] [Arg.str l.value] w).2.data k = w.data k) ∧
      (ret = none →
        (∀ e, (World.redis.Eval Script.luaUnlock [l.key] [Arg.str l.value]
          (World.redis.Eval Script.luaUnlock [l.key] [Arg.str l.value] w).2).1 ≠ .error e) →
        ∃ l2 evs2 w2, l1.Unlock World.redis
          (World.redis.Eval Script.luaUnlock [l.key] [Arg.str l.value] w).2
            = .ok (some Err.ErrLockNotHold, l2, evs2, w2)) := by
  obtain ⟨ret, l1, evs, hU, hk, hv, -, hwf, -, -, -, herr, hint⟩ := Lock.Unlock_ok World.redis l w hl
  obtain ⟨hframe, hnow, hans⟩ := World.release_cases l w
  refine ⟨ret, l1, _, hU, ?_, ?_, hframe, ?_⟩
  · intro ha
    obtain ⟨hmatch, hmis⟩ := hans ha
    by_cases hm : (w.get l.key).map Entry.value = some l.value
    · have h1 := hint 1 (hmatch hm).1
      simp only [if_true] at h1
      exact ⟨⟨fun _ => hm, fun _ => h1⟩, fun _ => (hmatch hm).2, fun hc => absurd h1 hc⟩
    · have h0 := hint 0 (hmis hm).1
      simp only [zero_ne_one, if_false] at h0
      have hnot : ret ≠ none := by rw [h0]; simp
      exact ⟨⟨fun hc => absurd hc hnot, fun hc => absurd hc hm⟩, fun hc => absurd hc hnot,
        fun _ => ⟨h0, (hmis hm).2, hnow⟩⟩
  · intro e he hne
    have := herr e he
    rw [if_neg hne] at this
    exact this
  · intro hret ha2
    -- the first call was answered and deleted the key
    have ha : ∀ e, (World.redis.Eval Script.luaUnlock [l.key] [Arg.str l.value] w).1 ≠ .error e := by
      intro e he
      have := herr e he
      rw [hret] at this
      cases this
    obtain ⟨hmatch, hmis⟩ := hans ha
    have hm : (w.get l.key).map Entry.value = some l.value := by
      by_contra hm
      have h0 := hint 0 (hmis hm).1
      simp only [zero_ne_one, if_false] at h0
      rw [hret] at h0
      cases h0
    have hgone := World.get_none_of_data _ _ (hmatch hm).2
    obtain ⟨ret2, l2, evs2, hU2, -, -, -, -, -, -, -, -, hint2⟩ := Lock.Unlock_ok World.redis l1 _ hwf
    obtain ⟨-, -, hans2⟩ := World.release_cases l1
      (World.redis.Eval Script.luaUnlock [l.key] [Arg.str l.value] w).2
    rw [hk, hv] at hans2 hint2
    obtain ⟨-, hmis2⟩ := hans2 ha2
    have h0 := hint2 0 (hmis2 (by rw [hgone]; simp)).1
    simp only [zero_ne_one, if_false] at h0
    rw [h0] at hU2
    exact ⟨l2, _, _, hU2⟩

/-- Scenario 2 of the specification: the holder unlocks, then unlocks again. -/
theorem Lock.Unlock_contract_witness :
    ∃ l1 evs w1, Lock.held.Unlock World.redis World.held = .ok (none, l1, evs, w1) ∧
      w1.data "job:42" = none ∧
      ∃ l2 evs2 w2, l1.Unlock World.redis w1 = .ok (some Err.ErrLockNotHold, l2, evs2, w2) := by
  obtain ⟨ret, l1, evs, hU, hans, -, -, hsecond⟩ :=
    Lock.Unlock_contract Lock.held World.held ⟨fun _ => rfl, fun h => Bool.noConfusion h⟩
  obtain ⟨hiff, hdel, -⟩ := hans (by intro e h; cases h)
  have hret : ret = none := hiff.2 (by decide)
  subst hret
  exact ⟨l1, evs, _, hU, hdel rfl, hsecond rfl (by intro e h; cases h)⟩

/-! ## Refresh -/

/-- C7, the claim at a concrete run: a caller joins the acquisition in flight
and the leader's `Lock` completes with a lock.  When that result arrives the
caller has not returned; it starts a second round in which its own function
runs an underlying `Lock`, and returns the error of that execution, not the
leader's lock. -/
theorem Client.SingleflightLock_follower_retries :
    Client.SingleflightLock [⟨false, .ok Lock.held, none⟩] = (none, 0) ∧
    Client.SingleflightLock
        [⟨false, .ok Lock.held, none⟩, ⟨true, .error (exhausted (.ok (Val.str ""))), none⟩]
      = (some (.error (exhausted (.ok (Val.str "")))), 1) := by
  decide

/-- C7, amended: the result delivered to a call that joined an acquisition in
flight is discarded, the call goes on with its next round.  Whatever
`SingleflightLock` returns, it returns it in a round that only rounds as a
follower precede, and either the context was done in that round and the call
returns its error, or the round ran the function of the call itself and the
call returns the result of that underlying `Lock`, which is the one underlying
`Lock` started for this call. -/
theorem Client.SingleflightLock_returns (rounds : List Round) :
    (∀ res rest, Client.SingleflightLock (⟨false, res, none⟩ :: rest)
      = Client.SingleflightLock rest) ∧
    ∀ r, (Client.SingleflightLock rounds).1 = some r →
      ∃ pre rd rest, rounds = pre ++ rd :: rest ∧
        (∀ x ∈ pre, x.leader = false ∧ x.done = none) ∧
        ((∃ e, rd.done = some e ∧ r = .error e) ∨
         (rd.done = none ∧ rd.leader = true ∧ r = rd.res ∧
            (Client.SingleflightLock rounds).2 = 1)) := by
  refine ⟨fun res rest => by simp [Client.SingleflightLock], ?_⟩
  induction rounds with
  | nil => intro r h; simp [Client.SingleflightLock] at h
  | cons rd rest ih =>
    intro r h
    cases hd : rd.done with
    | some e =>
      simp only [Client.SingleflightLock, hd] at h ⊢
      cases h
      exact ⟨[], rd, rest, rfl, (fun x hx => by cases hx), Or.inl ⟨e, hd, rfl⟩⟩
    | none =>
      cases hl : rd.leader with
      | true =>
        refine ⟨[], rd, rest, rfl, (fun x hx => by cases hx), Or.inr ⟨hd, hl, ?_, ?_⟩⟩
        · simp only [Client.SingleflightLock, hd, hl, if_true] at h
          split at h <;> (rename_i h2; cases h; rw [h2])
        · simp only [Client.SingleflightLock, hd, hl, if_true]
          split <;> rfl
      | false =>
        simp only [Client.SingleflightLock, hd, hl, Bool.false_eq_true, if_false,
          Nat.zero_add] at h ⊢
        obtain ⟨pre, rd', rest', hsplit, hpre, hres⟩ := ih r h
        refine ⟨rd :: pre, rd', rest', by rw [hsplit]; rfl, ?_, hres⟩
        intro x hx
        rcases List.mem_cons.1 hx with hx | hx
        · rw [hx]; exact ⟨hl, hd⟩
        · exact hpre x hx

/-- A follower round, then a round of its own: the call returns the result of
its own `Lock`. -/
theorem Client.SingleflightLock_returns_witness :
    ∃ pre rd rest,
      [(⟨false, .ok Lock.held, none⟩ : Round), ⟨true, .ok Lock.stale, none⟩] = pre ++ rd :: rest ∧
      (∀ x ∈ pre, x.leader = false ∧ x.done = none) ∧
      ((∃ e, rd.done = some e ∧ (.ok Lock.stale : Except Err rlock.Lock) = .error e) ∨
       (rd.done = none ∧ rd.leader = true ∧ .ok Lock.stale = rd.res ∧
          (Client.SingleflightLock
            [⟨false, .ok Lock.held, none⟩, ⟨true, .ok Lock.stale, none⟩]).2 = 1)) :=
  (Client.SingleflightLock_returns
    [⟨false, .ok Lock.held, none⟩, ⟨true, .ok Lock.stale, none⟩]).2 (.ok Lock.stale) (by decide)

/-! ## AutoRefresh -/

/-- The loop body after a receive, on a task whose retry channel is open with
capacity one. -/
theorem Lock.AutoRefresh.refresh_spec {ω : Type} (client : Cmdable ω) (t : Task ω)
    (hcap : t.ch.cap = 1) (hlen : t.ch.len ≤ 1) (hopen : t.ch.closed = false) :
    ∃ t1, Lock.AutoRefresh.refresh client t = some t1 ∧
      t1.refreshes = t.refreshes ++ [(t.l.Refresh client t.w).1] ∧
      t1.l = t.l ∧ t1.tickerC = t.tickerC ∧ t1.ch.cap = 1 ∧ t1.ch.len ≤ 1 ∧
      ((t.l.Refresh client t.w).1 = some Err.DeadlineExceeded →
        t1.ret = t.ret ∧ t1.ch.len = 1 ∧ t1.ch.closed = false) ∧
      (∀ e, (t.l.Refresh client t.w).1 = some e → e ≠ Err.DeadlineExceeded →
        t1.ret = some (some e)) ∧
      ((t.l.Refresh client t.w).1 = none → t1.ret = t.ret ∧ t1.ch = t.ch) := by
  unfold Lock.AutoRefresh.refresh
  simp only
  by_cases hde : (t.l.Refresh client t.w).1 = some Err.DeadlineExceeded
  · rw [if_pos hde]
    have hlen' : t.ch.len = 0 ∨ t.ch.len = 1 := by omega
    rcases hlen' with h0 | h1
    · refine ⟨_, by simp [Chan.trySend, hopen, hcap, h0]; rfl, ?_⟩
      simp [hde, hcap, hopen]
    · refine ⟨_, by simp [Chan.trySend, hopen, hcap, h1]; rfl, ?_⟩
      simp [hde, hcap, hopen, h1]
  · rw [if_neg hde]
    cases ho : (t.l.Refresh client t.w).1 with
    | none =>
      simp [hcap, hlen]
    | some e =>
      have hne : e ≠ Err.DeadlineExceeded := by
        intro h; rw [h] at ho; exact hde ho
      simp [Chan.close, hopen, hcap, hlen, hne]

theorem Chan.recv_spec (c : Chan) :
    c.recv.cap = c.cap ∧ c.recv.len ≤ c.len ∧ c.recv.closed = c.closed := by
  unfold Chan.recv
  split
  · exact ⟨rfl, Nat.sub_le _ _, rfl⟩
  · exact ⟨rfl, Nat.le_refl _, rfl⟩

/-- An iteration that takes the retry case or the tick case. -/
theorem Lock.AutoRefresh.step_refresh {ω : Type} (client : Cmdable ω) (t t1 : Task ω)
    (hinv : t.inv) (st : Step) (hst : st = Step.caseCh ∨ st = Step.caseTicker)
    (h : Lock.AutoRefresh.step client t st = some t1) :
    t.ret = none ∧
    t1.refreshes = t.refreshes ++ [(t.l.Refresh client t.w).1] ∧
    t1.l = t.l ∧ t1.ch.cap = 1 ∧ t1.ch.len ≤ 1 ∧ t1.tickerC.closed = false ∧
    ((t.l.Refresh client t.w).1 = some Err.DeadlineExceeded →
      t1.ret = none ∧ t1.ch.len = 1 ∧ t1.ch.closed = false) ∧
    (∀ e, (t.l.Refresh client t.w).1 = some e → e ≠ Err.DeadlineExceeded →
      t1.ret = some (some e)) ∧
    ((t.l.Refresh client t.w).1 = none → t1.ret = none ∧ t1.ch.closed = false) := by
  obtain ⟨hcap, hlen, hopen, htick, hwf, hret⟩ := hinv
  rcases hst with hst | hst
  · subst hst
    simp only [Lock.AutoRefresh.step] at h
    split at h
    · rename_i hg
      obtain ⟨hr, -⟩ := hg
      obtain ⟨rc, rl, ro⟩ := Chan.recv_spec t.ch
      obtain ⟨t2, h2, hrf, hl, htk, hc1, hc2, hde, herr, hnone⟩ :=
        Lock.AutoRefresh.refresh_spec client { t with ch := t.ch.recv }
          (by simp only; rw [rc, hcap]) (by simp only; omega) (by simp only; rw [ro, hopen hr])
      rw [h2] at h
      cases h
      refine ⟨hr, hrf, hl, hc1, hc2, by rw [htk]; exact htick, ?_, herr, ?_⟩
      · intro hd
        obtain ⟨a, b, c⟩ := hde hd
        exact ⟨by rw [a]; exact hr, b, c⟩
      · intro hn
        obtain ⟨a, b⟩ := hnone hn
        exact ⟨by rw [a]; exact hr, by rw [b]; simp only; rw [ro, hopen hr]⟩
    · cases h
  · subst hst
    simp only [Lock.AutoRefresh.step] at h
    split at h
    · rename_i hg
      obtain ⟨hr, -⟩ := hg
      obtain ⟨rc, rl, ro⟩ := Chan.recv_spec t.tickerC
      obtain ⟨t2, h2, hrf, hl, htk, hc1, hc2, hde, herr, hnone⟩ :=
        Lock.AutoRefresh.refresh_spec client { t with tickerC := t.tickerC.recv }
          hcap hlen (hopen hr)
      rw [h2] at h
      cases h
      refine ⟨hr, hrf, hl, hc1, hc2, by rw [htk]; simp only; rw [ro, htick], ?_, herr, ?_⟩
      · intro hd
        obtain ⟨a, b, c⟩ := hde hd
        exact ⟨by rw [a]; exact hr, b, c⟩
      · intro hn
        obtain ⟨a, b⟩ := hnone hn
        exact ⟨by rw [a]; exact hr, by rw [b]; exact hopen hr⟩
    · cases h

/-- A step of the environment changes neither the value returned nor the list
of refreshes, nor the retry channel. -/
theorem Lock.AutoRefresh.step_env {ω : Type} (client : Cmdable ω) (t t1 : Task ω)
    (hwf : t.l.wf) (htick : t.tickerC.closed = false)
    (st : Step) (hst : st = Step.tick ∨ st = Step.unlock)
    (h : Lock.AutoRefresh.step client t st = some t1) :
    t1.ret = t.ret ∧ t1.refreshes = t.refreshes ∧ t1.ch = t.ch ∧
    t1.tickerC.closed = false ∧ t1.l.wf ∧
    (t.l.singnalUnlockOnce = true → t1.l.singnalUnlockOnce = true) := by
  rcases hst with hst | hst
  · subst hst
    simp only [Lock.AutoRefresh.step] at h
    have hts : ∃ c, t.tickerC.trySend = .ok c ∧ c.closed = false := by
      unfold Chan.trySend
      rw [htick]
      by_cases hl : t.tickerC.len < t.tickerC.cap
      · exact ⟨{ t.tickerC with len := t.tickerC.len + 1 }, by simp [hl, htick], htick⟩
      · exact ⟨t.tickerC, by simp [hl], htick⟩
    obtain ⟨c, hc, hcc⟩ := hts
    rw [hc] at h
    split at h
    · cases h
      exact ⟨rfl, rfl, rfl, hcc, hwf, fun x => x⟩
    · cases h
      exact ⟨rfl, rfl, rfl, htick, hwf, fun x => x⟩
  · subst hst
    obtain ⟨ret, l1, evs, hU, -, -, -, hwf1, ho1, -, -, -, -⟩ := Lock.Unlock_ok client t.l t.w hwf
    simp only [Lock.AutoRefresh.step, hU] at h
    cases h
    exact ⟨rfl, rfl, rfl, htick, hwf1, fun _ => ho1⟩

/-- An iteration that takes the stop case returns nil without a refresh. -/
theorem Lock.AutoRefresh.step_stop {ω : Type} (client : Cmdable ω) (t t1 : Task ω)
    (hinv : t.inv) (h : Lock.AutoRefresh.step client t Step.caseUnlock = some t1) :
    t.ret = none ∧ t1.ret = some none ∧ t1.refreshes = t.refreshes ∧ t1.inv := by
  obtain ⟨hcap, hlen, hopen, htick, hwf, hret⟩ := hinv
  simp only [Lock.AutoRefresh.step] at h
  split at h
  · rename_i hg
    obtain ⟨hr, hready⟩ := hg
    simp only [Chan.close, hopen hr, Bool.false_eq_true, if_false] at h
    cases h
    refine ⟨hr, rfl, rfl, hcap, hlen, (fun hc => by cases hc), htick, ?_,
      (fun e he => by cases he)⟩
    obtain ⟨rc, rl, ro⟩ := Chan.recv_spec t.l.unlock
    cases ho : t.l.singnalUnlockOnce
    · have := hwf.1 ho
      rw [this] at hready
      simp [Chan.ready, Chan.make] at hready
    · obtain ⟨a, b, c⟩ := hwf.2 ho
      exact ⟨(fun hc => by simp only at hc; cases hc),
        (fun _ => ⟨by simp only; rw [ro, a], by simp only; rw [rc, b], by simp only; omega⟩)⟩
  · cases h

theorem Lock.AutoRefresh.step_inv {ω : Type} (client : Cmdable ω) (t t1 : Task ω)
    (hinv : t.inv) (st : Step) (h : Lock.AutoRefresh.step client t st = some t1) :
    t1.inv := by
  cases st with
  | tick =>
    obtain ⟨a, b, c, d, e, _⟩ :=
      Lock.AutoRefresh.step_env client t t1 hinv.2.2.2.2.1 hinv.2.2.2.1 _ (Or.inl rfl) h
    obtain ⟨hcap, hlen, hopen, -, -, hret⟩ := hinv
    exact ⟨by rw [c]; exact hcap, by rw [c]; exact hlen, by rw [c, a]; exact hopen, d, e,
      by rw [a, b]; exact hret⟩
  | unlock =>
    obtain ⟨a, b, c, d, e, _⟩ :=
      Lock.AutoRefresh.step_env client t t1 hinv.2.2.2.2.1 hinv.2.2.2.1 _ (Or.inr rfl) h
    obtain ⟨hcap, hlen, hopen, -, -, hret⟩ := hinv
    exact ⟨by rw [c]; exact hcap, by rw [c]; exact hlen, by rw [c, a]; exact hopen, d, e,
      by rw [a, b]; exact hret⟩
  | caseUnlock => exact (Lock.AutoRefresh.step_stop client t t1 hinv h).2.2.2
  | caseCh =>
    obtain ⟨hr, hrf, hl, hc1, hc2, htk, hde, herr, hnone⟩ :=
      Lock.AutoRefresh.step_refresh client t t1 hinv _ (Or.inl rfl) h
    refine ⟨hc1, hc2, ?_, htk, by rw [hl]; exact hinv.2.2.2.2.1, ?_⟩
    · intro hn
      cases ho : (t.l.Refresh client t.w).1 with
      | none => exact (hnone ho).2
      | some e =>
        by_cases hd : e = Err.DeadlineExceeded
        · subst hd; exact (hde ho).2.2
        · have := herr e ho hd
          rw [hn] at this
          cases this
    · intro e he
      cases ho : (t.l.Refresh client t.w).1 with
      | none => rw [(hnone ho).1] at he; cases he
      | some e' =>
        by_cases hd : e' = Err.DeadlineExceeded
        · subst hd; rw [(hde ho).1] at he; cases he
        · have := herr e' ho hd
          rw [this] at he
          cases he
          exact ⟨by rw [hrf, ho]; simp, hd⟩
  | caseTicker =>
    obtain ⟨hr, hrf, hl, hc1, hc2, htk, hde, herr, hnone⟩ :=
      Lock.AutoRefresh.step_refresh client t t1 hinv _ (Or.inr rfl) h
    refine ⟨hc1, hc2, ?_, htk, by rw [hl]; exact hinv.2.2.2.2.1, ?_⟩
    · intro hn
      cases ho : (t.l.Refresh client t.w).1 with
      | none => exact (hnone ho).2
      | some e =>
        by_cases hd : e = Err.DeadlineExceeded
        · subst hd; exact (hde ho).2.2
        · have := herr e ho hd
          rw [hn] at this
          cases this
    · intro e he
      cases ho : (t.l.Refresh client t.w).1 with
      | none => rw [(hnone ho).1] at he; cases he
      | some e' =>
        by_cases hd : e' = Err.DeadlineExceeded
        · subst hd; rw [(hde ho).1] at he; cases he
        · have := herr e' ho hd
          rw [this] at he
          cases he
          exact ⟨by rw [hrf, ho]; simp, hd⟩

theorem Lock.AutoRefresh.run_inv {ω : Type} (client : Cmdable ω) (steps : List Step) :
    ∀ (t t1 : Task ω), t.inv → Lock.AutoRefresh.run client t steps = some t1 → t1.inv := by
  induction steps with
  | nil => intro t t1 hinv h; cases h; exact hinv
  | cons st rest ih =>
    intro t t1 hinv h
    simp only [Lock.AutoRefresh.run] at h
    split at h
    · rename_i t2 h2
      exact ih t2 t1 (Lock.AutoRefresh.step_inv client t t2 hinv st h2) h
    · cases h

theorem Lock.AutoRefresh.start_inv {ω : Type} (l : Lock) (w : ω) (hl : l.wf) :
    (Lock.AutoRefresh.start l w).inv :=
  ⟨rfl, Nat.zero_le 1, (fun _ => rfl), rfl, hl, (fun e he => by cases he)⟩

/-- Once the task has returned, no step changes the value returned or issues a
refresh. -/
theorem Lock.AutoRefresh.run_returned {ω : Type} (client : Cmdable ω) (steps : List Step) :
    ∀ (t t1 : Task ω), t.inv → t.ret ≠ none →
      Lock.AutoRefresh.run client t steps = some t1 →
      t1.ret = t.ret ∧ t1.refreshes = t.refreshes := by
  induction steps with
  | nil => intro t t1 _ _ h; cases h; exact ⟨rfl, rfl⟩
  | cons st rest ih =>
    intro t t1 hinv hret h
    simp only [Lock.AutoRefresh.run] at h
    split at h
    · rename_i t2 h2
      have hinv2 := Lock.AutoRefresh.step_inv client t t2 hinv st h2
      have hsame : t2.ret = t.ret ∧ t2.refreshes = t.refreshes := by
        cases st with
        | tick =>
          obtain ⟨a, b, _⟩ := Lock.AutoRefresh.step_env client t t2 hinv.2.2.2.2.1
            hinv.2.2.2.1 _ (Or.inl rfl) h2
          exact ⟨a, b⟩
        | unlock =>
          obtain ⟨a, b, _⟩ := Lock.AutoRefresh.step_env client t t2 hinv.2.2.2.2.1
            hinv.2.2.2.1 _ (Or.inr rfl) h2
          exact ⟨a, b⟩
        | caseCh =>
          exact absurd (Lock.AutoRefresh.step_refresh client t t2 hinv _ (Or.inl rfl) h2).1 hret
        | caseTicker =>
          exact absurd (Lock.AutoRefresh.step_refresh client t t2 hinv _ (Or.inr rfl) h2).1 hret
        | caseUnlock =>
          exact absurd (Lock.AutoRefresh.step_stop client t t2 hinv h2).1 hret
      obtain ⟨a, b⟩ := ih t2 t1 hinv2 (by rw [hsame.1]; exact hret) h
      exact ⟨by rw [a, hsame.1], by rw [b, hsame.2]⟩
    · cases h

/-- What the loop of `AutoRefresh` does in every state `t` the system reaches.
At most one retry trigger is pending.  While the task runs, the tick case
completes an iteration whenever a tick is pending and the retry case whenever a
trigger is pending (no send blocks, nothing panics).  Such an iteration issues
exactly one `Refresh`; when it returns the value `context.DeadlineExceeded`
itself the task keeps running and exactly one trigger is pending afterwards;
when it returns any other error, one that wraps `context.DeadlineExceeded`
included, the task returns that very error; when it succeeds the task keeps
running.  Once the task has returned no step changes the value returned or
issues a `Refresh`.  An error the task returned was returned by a `Refresh` it
issued and is not the value `context.DeadlineExceeded`. -/
theorem Lock.AutoRefresh.machine {ω : Type} (client : Cmdable ω) (l : Lock) (w : ω)
    (hl : l.wf) (steps : List Step) (t : Task ω)
    (hrun : Lock.AutoRefresh.run client (Lock.AutoRefresh.start l w) steps = some t) :
    t.ch.len ≤ 1 ∧
    (t.ret = none → t.tickerC.ready = true →
      ∃ t1, Lock.AutoRefresh.step client t Step.caseTicker = some t1) ∧
    (t.ret = none → t.ch.ready = true →
      ∃ t1, Lock.AutoRefresh.step client t Step.caseCh = some t1) ∧
    (∀ st t1, st = Step.caseCh ∨ st = Step.caseTicker →
      Lock.AutoRefresh.step client t st = some t1 →
        t1.refreshes = t.refreshes ++ [(t.l.Refresh client t.w).1] ∧ t1.ch.len ≤ 1 ∧
        ((t.l.Refresh client t.w).1 = some Err.DeadlineExceeded →
          t1.ret = none ∧ t1.ch.len = 1) ∧
        (∀ e, (t.l.Refresh client t.w).1 = some e → e ≠ Err.DeadlineExceeded →
          t1.ret = some (some e)) ∧
        ((t.l.Refresh client t.w).1 = none → t1.ret = none)) ∧
    (t.ret ≠ none → ∀ steps2 t2, Lock.AutoRefresh.run client t steps2 = some t2 →
      t2.ret = t.ret ∧ t2.refreshes = t.refreshes) ∧
    (∀ e, t.ret = some (some e) → some e ∈ t.refreshes ∧ e ≠ Err.DeadlineExceeded) := by
  have hinv := Lock.AutoRefresh.run_inv client steps _ t (Lock.AutoRefresh.start_inv l w hl) hrun
  refine ⟨hinv.2.1, ?_, ?_, ?_, ?_, ?_⟩
  · intro hr hready
    obtain ⟨t1, h1, -⟩ := Lock.AutoRefresh.refresh_spec client
      { t with tickerC := t.tickerC.recv } hinv.1 hinv.2.1 (hinv.2.2.1 hr)
    refine ⟨t1, ?_⟩
    simp only [Lock.AutoRefresh.step]
    rw [if_pos (show t.ret = none ∧ t.tickerC.ready = true from ⟨hr, hready⟩)]
    exact h1
  · intro hr hready
    obtain ⟨rc, rl, ro⟩ := Chan.recv_spec t.ch
    obtain ⟨t1, h1, -⟩ := Lock.AutoRefresh.refresh_spec client
      { t with ch := t.ch.recv } (by simp only; rw [rc, hinv.1])
      (by simp only; exact Nat.le_trans rl hinv.2.1) (by simp only; rw [ro, hinv.2.2.1 hr])
    refine ⟨t1, ?_⟩
    simp only [Lock.AutoRefresh.step]
    rw [if_pos (show t.ret = none ∧ t.ch.ready = true from ⟨hr, hready⟩)]
    exact h1
  · intro st t1 hst h
    obtain ⟨-, hrf, -, -, hc2, -, hde, herr, hnone⟩ :=
      Lock.AutoRefresh.step_refresh client t t1 hinv st hst h
    exact ⟨hrf, hc2, fun hd => ⟨(hde hd).1, (hde hd).2.1⟩, herr, fun hn => (hnone hn).1⟩
  · intro hret steps2 t2 h2
    exact Lock.AutoRefresh.run_returned client steps2 t t2 hinv hret h2
  · intro e he
    obtain ⟨hlast, hne⟩ := hinv.2.2.2.2.2 e he
    exact ⟨List.mem_of_getLast?_eq_some hlast, hne⟩

/-- C8, the code at the failing input: the watchdog of the holder of "job:42"
takes a tick and its `Refresh` fails with a read error that wraps
`context.DeadlineExceeded`, a timeout under `errors.Is`.  The task returns that
error at once and no retry trigger is pending.  When the `Refresh` fails with
the value `context.DeadlineExceeded` itself, the task keeps running with one
trigger pending. -/
theorem Lock.AutoRefresh_wrapped_timeout :
    errors.Is (Err.wrapf "read tcp: %w" Err.DeadlineExceeded) Err.DeadlineExceeded = true ∧
    (Lock.AutoRefresh.run (Oracle.redis Oracle.slowRenewals)
        (Lock.AutoRefresh.start Lock.held ⟨0, 0⟩) [Step.tick, Step.caseTicker]).map
      (fun t => (t.ret, t.ch.len, t.refreshes))
      = some (some (some (Err.wrapf "read tcp: %w" Err.DeadlineExceeded)), 0,
          [some (Err.wrapf "read tcp: %w" Err.DeadlineExceeded)]) ∧
    (Lock.AutoRefresh.run (Oracle.redis Oracle.renewals)
        (Lock.AutoRefresh.start Lock.held ⟨0, 0⟩) [Step.tick, Step.caseTicker]).map
      (fun t => (t.ret, t.ch.len, t.refreshes))
      = some (none, 1, [some Err.DeadlineExceeded]) := by
  decide

/-- A run of steps in which the `select` takes neither the retry case nor the
tick case issues no refresh, and the task is still running or returned nil. -/
theorem Lock.AutoRefresh.run_quiet {ω : Type} (client : Cmdable ω) (steps : List Step) :
    ∀ (t t1 : Task ω), t.inv → t.ret = none →
      Lock.AutoRefresh.run client t steps = some t1 →
      Step.caseCh ∉ steps → Step.caseTicker ∉ steps →
      t1.refreshes = t.refreshes ∧ (t1.ret = none ∨ t1.ret = some none) := by
  induction steps with
  | nil => intro t t1 _ hr h _ _; cases h; exact ⟨rfl, Or.inl hr⟩
  | cons st rest ih =>
    intro t t1 hinv hr h h1 h2
    simp only [Lock.AutoRefresh.run] at h
    split at h
    · rename_i t2 hs
      have hinv2 := Lock.AutoRefresh.step_inv client t t2 hinv st hs
      have hr1 : Step.caseCh ∉ rest := fun hc => h1 (List.mem_cons_of_mem _ hc)
      have hr2 : Step.caseTicker ∉ rest := fun hc => h2 (List.mem_cons_of_mem _ hc)
      cases st with
      | tick =>
        obtain ⟨a, b, _⟩ := Lock.AutoRefresh.step_env client t t2 hinv.2.2.2.2.1
          hinv.2.2.2.1 _ (Or.inl rfl) hs
        obtain ⟨c, d⟩ := ih t2 t1 hinv2 (by rw [a]; exact hr) h hr1 hr2
        exact ⟨by rw [c, b], d⟩
      | unlock =>
        obtain ⟨a, b, _⟩ := Lock.AutoRefresh.step_env client t t2 hinv.2.2.2.2.1
          hinv.2.2.2.1 _ (Or.inr rfl) hs
        obtain ⟨c, d⟩ := ih t2 t1 hinv2 (by rw [a]; exact hr) h hr1 hr2
        exact ⟨by rw [c, b], d⟩
      | caseCh => exact absurd (List.mem_cons_self _ _) h1
      | caseTicker => exact absurd (List.mem_cons_self _ _) h2
      | caseUnlock =>
        obtain ⟨-, a, b, -⟩ := Lock.AutoRefresh.step_stop client t t2 hinv hs
        obtain ⟨c, d⟩ := Lock.AutoRefresh.run_returned client rest t2 t1 hinv2
          (by rw [a]; simp) h
        exact ⟨by rw [d, b], Or.inr (by rw [c, a])⟩
    · cases h

/-- C9, the claim at a concrete run: the holder of "job:42" starts the watchdog,
a tick is delivered and `Unlock` is called, so that the stop signal has fired
while the tick is pending and the task is running; the `select` then takes the
tick case, a `Refresh` is issued, and `AutoRefresh` returns `ErrLockNotHold`,
not nil. -/
theorem Lock.AutoRefresh_refresh_after_unlock :
    (Lock.AutoRefresh.run World.redis (Lock.AutoRefresh.start Lock.held World.held)
        [Step.tick, Step.unlock]).map
      (fun t => (t.l.singnalUnlockOnce, t.tickerC.ready, t.ret, t.refreshes))
      = some (true, true, none, []) ∧
    (Lock.AutoRefresh.run World.redis (Lock.AutoRefresh.start Lock.held World.held)
        [Step.tick, Step.unlock, Step.caseTicker]).map
      (fun t => (t.ret, t.refreshes))
      = some (some (some Err.ErrLockNotHold), [some Err.ErrLockNotHold]) := by
  decide

/-- C9, amended: in every state the system reaches in which `Unlock` has been
called and the task is running, the stop case of the `select` can proceed, and
the iteration that takes it returns nil without a `Refresh`; when neither a
retry trigger nor a tick is pending, the retry case and the tick case cannot
proceed; and in any continuation whose iterations take neither of these two
cases no `Refresh` is issued and the task returns nothing but nil. -/
theorem Lock.AutoRefresh_stop {ω : Type} (client : Cmdable ω) (l : Lock) (w : ω)
    (hl : l.wf) (steps : List Step) (t : Task ω)
    (hrun : Lock.AutoRefresh.run client (Lock.AutoRefresh.start l w) steps = some t)
    (hfired : t.l.singnalUnlockOnce = true) (hrunning : t.ret = none) :
    (∃ t1, Lock.AutoRefresh.step client t Step.caseUnlock = some t1 ∧
      t1.ret = some none ∧ t1.refreshes = t.refreshes) ∧
    (t.ch.ready = false → t.tickerC.ready = false →
      Lock.AutoRefresh.step client t Step.caseCh = none ∧
      Lock.AutoRefresh.step client t Step.caseTicker = none) ∧
    (∀ steps2 t2, Lock.AutoRefresh.run client t steps2 = some t2 →
      Step.caseCh ∉ steps2 → Step.caseTicker ∉ steps2 →
      t2.refreshes = t.refreshes ∧ (t2.ret = none ∨ t2.ret = some none)) := by
  have hinv := Lock.AutoRefresh.run_inv client steps _ t (Lock.AutoRefresh.start_inv l w hl) hrun
  refine ⟨?_, ?_, ?_⟩
  · have hready : t.l.unlock.ready = true := by
      simp [Chan.ready, (hinv.2.2.2.2.1.2 hfired).1]
    have hopen := hinv.2.2.1 hrunning
    refine ⟨{ t with l := { t.l with unlock := t.l.unlock.recv },
                     ch := { t.ch with closed := true }, ret := some none }, ?_, rfl, rfl⟩
    simp [Lock.AutoRefresh.step, hrunning, hready, Chan.close, hopen]
  · intro h1 h2
    simp [Lock.AutoRefresh.step, h1, h2]
  · intro steps2 t2 h2 hc ht
    exact Lock.AutoRefresh.run_quiet client steps2 t t2 hinv hrunning h2 hc ht

/-- Scenario 3 of the specification: the holder unlocks while the watchdog runs
and no tick is pending; the stop case returns nil without a refresh. -/
theorem Lock.AutoRefresh_stop_witness :
    Lock.AutoRefresh.run World.redis (Lock.AutoRefresh.start Lock.held World.held)
        [Step.unlock] = some Task.unlocked ∧
    (∃ t1, Lock.AutoRefresh.step World.redis Task.unlocked Step.caseUnlock = some t1 ∧
      t1.ret = some none ∧ t1.refreshes = Task.unlocked.refreshes) ∧
    Lock.AutoRefresh.step World.redis Task.unlocked Step.caseCh = none ∧
    Lock.AutoRefresh.step World.redis Task.unlocked Step.caseTicker = none :=
  have h := Lock.AutoRefresh_stop World.redis Lock.held World.held
    ⟨fun _ => rfl, fun h => Bool.noConfusion h⟩ [Step.unlock] Task.unlocked rfl rfl rfl
  ⟨rfl, h.1, h.2.1 rfl rfl⟩

theorem Lock.unlocks_fired {ω : Type} (client : Cmdable ω) (n : Nat) :
    ∀ (l : Lock) (w : ω), l.wf → l.singnalUnlockOnce = true →
      ∃ rs wN, Lock.unlocks client n l w = .ok (rs, l, wN) ∧ rs.length = n ∧
        ∀ x ∈ rs, ∃ res, x.2 = [Ev.Eval Script.luaUnlock [l.key] [Arg.str l.value] res] := by
  induction n with
  | zero =>
    intro l w _ _
    exact ⟨[], w, rfl, rfl, fun x hx => by cases hx⟩
  | succ n ih =>
    intro l w hl ho
    obtain ⟨ret, l1, evs, hU, -, -, -, -, -, h1, -, -, -⟩ := Lock.Unlock_ok client l w hl
    obtain ⟨hl1, hevs⟩ := h1 ho
    subst hl1 hevs
    obtain ⟨rs, wN, hrs, hlen, hall⟩ := ih l1
      (client.Eval Script.luaUnlock [l1.key] [Arg.str l1.value] w).2 hl ho
    refine ⟨(ret, [Ev.Eval Script.luaUnlock [l1.key] [Arg.str l1.value]
      (client.Eval Script.luaUnlock [l1.key] [Arg.str l1.value] w).1]) :: rs, wN, ?_,
      by simp [hlen], ?_⟩
    · simp only [Lock.unlocks, hU, hrs]
    · intro x hx
      rcases List.mem_cons.1 hx with hx | hx
      · exact ⟨_, by rw [hx]⟩
      · exact hall x hx

/-- C10: on a handle made by `newLock` the stop signal is not fired.  Any number
`n + 1` of successive `Unlock` calls on it complete, whatever the release
attempts return: the first call performs its release attempt and then the send
and the close of the signal, in this order; each later call performs its
release attempt and nothing else; the signal channel ends closed, fired once. -/
theorem Lock.Unlock_signal_once {ω : Type} (client : Cmdable ω) (key value : String)
    (expiration : Duration) (w : ω) (n : Nat) :
    (newLock key value expiration).unlock = Chan.make 1 ∧
    (newLock key value expiration).singnalUnlockOnce = false ∧
    ∃ r rs lN wN,
      Lock.unlocks client (n + 1) (newLock key value expiration) w = .ok (r :: rs, lN, wN) ∧
      rs.length = n ∧
      (∃ res, r.2 = [Ev.Eval Script.luaUnlock [key] [Arg.str value] res, Ev.Send, Ev.Close]) ∧
      (∀ x ∈ rs, ∃ res, x.2 = [Ev.Eval Script.luaUnlock [key] [Arg.str value] res]) ∧
      ((r :: rs).map (fun x => x.2.count Ev.Send)).sum = 1 ∧
      lN.singnalUnlockOnce = true ∧ lN.unlock = ⟨1, 1, true⟩ := by
  refine ⟨rfl, rfl, ?_⟩
  have hwf : (newLock key value expiration).wf := ⟨fun _ => rfl, fun h => Bool.noConfusion h⟩
  obtain ⟨ret, l1, evs, hU, hk, hv, -, hwf1, ho1, -, h2, -, -⟩ :=
    Lock.Unlock_ok client (newLock key value expiration) w hwf
  obtain ⟨hevs, hch⟩ := h2 rfl
  subst hevs
  obtain ⟨rs, wN, hrs, hlen, hall⟩ := Lock.unlocks_fired client n l1
    (client.Eval Script.luaUnlock [key] [Arg.str value] w).2 hwf1 ho1
  rw [hk, hv] at hall
  have hk' : (newLock key value expiration).key = key := rfl
  have hv' : (newLock key value expiration).value = value := rfl
  rw [hk', hv'] at hU
  refine ⟨(ret, [Ev.Eval Script.luaUnlock [key] [Arg.str value]
    (client.Eval Script.luaUnlock [key] [Arg.str value] w).1, Ev.Send, Ev.Close]), rs, l1, wN,
    ?_, hlen, ⟨_, rfl⟩, ?_, ?_, ho1, hch⟩
  · simp only [Lock.unlocks, hU, hk', hv', hrs]
  · intro x hx
    obtain ⟨res, hres⟩ := hall x hx
    exact ⟨res, by rw [hres, hk', hv']⟩
  · have hz : (rs.map (fun x => x.2.count Ev.Send)).sum = 0 := by
      apply List.sum_eq_zero
      intro c hc
      obtain ⟨x, hx, rfl⟩ := List.mem_map.1 hc
      obtain ⟨res, hres⟩ := hall x hx
      rw [hres]
      simp
    simp [hz]

end rlock
